import Mathlib

/-!
Verification of the Spring engine terrain height-field core (ReadMap.cpp).

Shallow embedding conventions:
* Heights are modelled as exact rationals (`ℚ`); normal vectors, which the
  source normalizes with a square root, are modelled over the reals (`ℝ`).
* Buffers are total functions from linear indices (`Int`) to values; a C++
  loop writing buffer cells becomes a fold over the explicit list of
  (index, value) writes it performs, in source iteration order (`writeList`).
* C++ `int` arithmetic: Lean `Int./` and `Int.%` are floor division and
  Euclidean remainder; every source division/modulus we translate is applied
  to non-negative operands (after clamping), where the two conventions agree
  with C's truncating division.  C++ `>>` (arithmetic shift) is `>>>` on
  `Int`, and `x & ~1` (clear the lowest bit, i.e. round down to an even
  number) is translated as `x - x % 2`.
* `mapx`/`mapy` (the map dimensions, `mapDims` in the source) and
  `numHeightMipMaps` (constant `7` in the source header, which is not part
  of the sources here) are parameters.
-/

/-- Pointwise update of a buffer modelled as a total function: the result of
a single C++ array store `buf[k] = v`. -/
def fupd {β : Type} (f : Int → β) (k : Int) (v : β) : Int → β :=
  fun j => if j = k then v else f j

/-- Sequence of array stores, executed left to right (source loop order). -/
def writeList {β : Type} (ws : List (Int × β)) (f : Int → β) : Int → β :=
  ws.foldl (fun g kv => fupd g kv.1 kv.2) f

theorem fupd_ne {β : Type} (f : Int → β) (k : Int) (v : β) {j : Int} (h : j ≠ k) :
    fupd f k v j = f j := by
  simp [fupd, h]

theorem fupd_self {β : Type} (f : Int → β) (k : Int) (v : β) :
    fupd f k v k = v := by
  simp [fupd]

theorem writeList_cons {β : Type} (k : Int) (v : β) (t : List (Int × β)) (f : Int → β) :
    writeList ((k, v) :: t) f = writeList t (fupd f k v) := rfl

/-- Cells no store touches keep their previous contents. -/
theorem writeList_notin {β : Type} (ws : List (Int × β)) (f : Int → β) (j : Int)
    (h : ∀ kv ∈ ws, kv.1 ≠ j) : writeList ws f j = f j := by
  induction ws generalizing f with
  | nil => rfl
  | cons kv t ih =>
      have hkey : kv.1 ≠ j := h kv (List.mem_cons_self kv t)
      have := ih (fupd f kv.1 kv.2) (fun kv' hkv' => h kv' (List.mem_cons_of_mem kv hkv'))
      rw [writeList_cons kv.1 kv.2 t f] at *
      rw [this, fupd_ne f kv.1 kv.2 (fun he => hkey he.symm)]

/-- If every store that hits index `k` stores the same value `v`, and at
least one store hits `k`, the final contents at `k` are `v`. -/
theorem writeList_hit {β : Type} (ws : List (Int × β)) (f : Int → β) (k : Int) (v : β)
    (hall : ∀ kv ∈ ws, kv.1 = k → kv.2 = v) (hmem : ∃ kv ∈ ws, kv.1 = k) :
    writeList ws f k = v := by
  induction ws generalizing f with
  | nil => exact absurd hmem (by simp)
  | cons kv t ih =>
      rw [writeList_cons kv.1 kv.2 t f]
      by_cases hk : kv.1 = k
      · have hv : kv.2 = v := hall kv (List.mem_cons_self kv t) hk
        by_cases hmem' : ∃ kv' ∈ t, kv'.1 = k
        · exact ih (fupd f kv.1 kv.2)
            (fun kv' hkv' => hall kv' (List.mem_cons_of_mem kv hkv')) hmem'
        · have : ∀ kv' ∈ t, kv'.1 ≠ k := by
            intro kv' hkv' hke
            exact hmem' ⟨kv', hkv', hke⟩
          rw [writeList_notin t (fupd f kv.1 kv.2) k this]
          simp [fupd, hk, hv]
      · obtain ⟨kv', hkv', hk'⟩ := hmem
        rcases List.mem_cons.mp hkv' with he | ht
        · exact absurd (he ▸ hk') hk
        · exact ih (fupd f kv.1 kv.2)
            (fun kv'' hkv'' => hall kv'' (List.mem_cons_of_mem kv hkv'')) ⟨kv', ht, hk'⟩

/-- Replaying the same stores over two buffers that agree wherever no store
hits yields the same buffer. -/
theorem writeList_eq_on {β : Type} (ws : List (Int × β)) (f g : Int → β)
    (h : ∀ j, (∀ kv ∈ ws, kv.1 ≠ j) → g j = f j) :
    writeList ws g = writeList ws f := by
  induction ws generalizing f g with
  | nil => funext j; exact h j (by simp)
  | cons kv t ih =>
      rw [writeList_cons kv.1 kv.2 t f, writeList_cons kv.1 kv.2 t g]
      refine ih (fupd f kv.1 kv.2) (fupd g kv.1 kv.2) ?_
      intro j hj
      by_cases hk : j = kv.1
      · rw [hk, fupd_self, fupd_self]
      · rw [fupd_ne f kv.1 kv.2 hk, fupd_ne g kv.1 kv.2 hk]
        refine h j ?_
        intro kv' hkv'
        rcases List.mem_cons.mp hkv' with he | ht
        · exact he ▸ (fun hek => hk hek.symm)
        · exact hj kv' ht

/-- Replaying an identical store sequence a second time changes nothing. -/
theorem writeList_idem {β : Type} (ws : List (Int × β)) (f : Int → β) :
    writeList ws (writeList ws f) = writeList ws f := by
  refine writeList_eq_on ws f (writeList ws f) ?_
  intro j hj
  exact writeList_notin ws f j hj

/-- A pointwise property holding for the old buffer and for every stored
value holds for the new buffer. -/
theorem writeList_pred {β : Type} (P : β → Prop) (ws : List (Int × β)) (f : Int → β)
    (hf : ∀ j, P (f j)) (hw : ∀ kv ∈ ws, P kv.2) : ∀ j, P (writeList ws f j) := by
  induction ws generalizing f with
  | nil => exact hf
  | cons kv t ih =>
      intro j
      rw [writeList_cons kv.1 kv.2 t f]
      refine ih (fupd f kv.1 kv.2) ?_ (fun kv' hkv' => hw kv' (List.mem_cons_of_mem kv hkv')) j
      intro j'
      by_cases hk : j' = kv.1
      · rw [hk, fupd_self]; exact hw kv (List.mem_cons_self kv t)
      · rw [fupd_ne f kv.1 kv.2 hk]; exact hf j'

/-- Helper for `intRange`: `n` consecutive integers starting at `a`
(structural recursion on the count, so the kernel can evaluate it). -/
def intRangeAux : ℕ → Int → List Int
  | 0, _ => []
  | n + 1, a => a :: intRangeAux n (a + 1)

/-- Integer interval `[a, b)` as the list `a, a+1, ..., b-1` (a C++
`for (i = a; i < b; ++i)` loop's iteration sequence). -/
def intRange (a b : Int) : List Int :=
  intRangeAux (b - a).toNat a

theorem intRange_eq_cons (a b : Int) (hab : a < b) :
    intRange a b = a :: intRange (a + 1) b := by
  unfold intRange
  rw [show (b - a).toNat = (b - (a + 1)).toNat + 1 by omega]
  rfl

theorem intRange_eq_nil (a b : Int) (hab : ¬a < b) : intRange a b = [] := by
  unfold intRange
  rw [show (b - a).toNat = 0 by omega]
  rfl

theorem mem_intRangeAux {i : Int} :
    ∀ (n : ℕ) (a : Int), i ∈ intRangeAux n a ↔ a ≤ i ∧ i < a + n := by
  intro n
  induction n with
  | zero =>
      intro a
      simp only [intRangeAux, List.not_mem_nil, false_iff, not_and, not_lt]
      omega
  | succ n ih =>
      intro a
      simp only [intRangeAux, List.mem_cons, ih (a + 1)]
      omega

theorem mem_intRange {a b i : Int} : i ∈ intRange a b ↔ a ≤ i ∧ i < b := by
  unfold intRange
  rw [mem_intRangeAux]
  omega

theorem intRangeAux_append (m n : ℕ) :
    ∀ a : Int, intRangeAux m a ++ intRangeAux n (a + m) = intRangeAux (m + n) a := by
  induction m with
  | zero =>
      intro a
      simp only [intRangeAux, List.nil_append, Nat.cast_zero, add_zero, Nat.zero_add]
  | succ m ih =>
      intro a
      have he : a + ((m + 1 : ℕ) : Int) = (a + 1) + (m : ℕ) := by push_cast; ring
      show (a :: intRangeAux m (a + 1)) ++ intRangeAux n (a + ((m + 1 : ℕ) : Int)) = _
      rw [List.cons_append, he, ih (a + 1), show m + 1 + n = (m + n) + 1 by omega]
      rfl

theorem intRange_append (a b c : Int) (hab : a ≤ b) (hbc : b ≤ c) :
    intRange a b ++ intRange b c = intRange a c := by
  unfold intRange
  have hb : b = a + ((b - a).toNat : Int) := by omega
  have hn : (c - a).toNat = (b - a).toNat + (c - b).toNat := by omega
  rw [hn, ← intRangeAux_append, ← hb]

theorem intRange_succ_last (a b : Int) (hab : a ≤ b) :
    intRange a (b + 1) = intRange a b ++ [b] := by
  rw [← intRange_append a b (b + 1) hab (by omega), intRange_eq_cons b (b + 1) (by omega),
    intRange_eq_nil (b + 1) (b + 1) (by omega)]

/-- Helper for `intRange2`: `n` integers with stride 2 starting at `a`. -/
def intRange2Aux : ℕ → Int → List Int
  | 0, _ => []
  | n + 1, a => a :: intRange2Aux n (a + 2)

/-- Iteration sequence of a C++ strided loop `for (i = a; i < b; i += 2)`:
the values `a, a+2, a+4, ...` below `b`. -/
def intRange2 (a b : Int) : List Int :=
  intRange2Aux ((b - a + 1) / 2).toNat a

theorem intRange2_eq_cons (a b : Int) (hab : a < b) :
    intRange2 a b = a :: intRange2 (a + 2) b := by
  unfold intRange2
  rw [show (b - a + 1) / 2 = (b - (a + 2) + 1) / 2 + 1 by omega,
    show ((b - (a + 2) + 1) / 2 + 1).toNat = ((b - (a + 2) + 1) / 2).toNat + 1 by omega]
  rfl

theorem intRange2_eq_nil (a b : Int) (hab : ¬a < b) : intRange2 a b = [] := by
  unfold intRange2
  rw [show ((b - a + 1) / 2).toNat = 0 by omega]
  rfl

theorem mem_intRange2Aux {i : Int} :
    ∀ (n : ℕ) (a : Int), i ∈ intRange2Aux n a ↔ ∃ k : ℕ, k < n ∧ i = a + 2 * k := by
  intro n
  induction n with
  | zero => intro a; simp [intRange2Aux]
  | succ n ih =>
      intro a
      simp only [intRange2Aux, List.mem_cons, ih (a + 2)]
      constructor
      · rintro (rfl | ⟨k, hk, rfl⟩)
        · exact ⟨0, by omega, by norm_num⟩
        · exact ⟨k + 1, by omega, by push_cast; ring⟩
      · rintro ⟨k, hk, rfl⟩
        rcases k with _ | k
        · left; norm_num
        · right; exact ⟨k, by omega, by push_cast; ring⟩

theorem mem_intRange2 {a b i : Int} : i ∈ intRange2 a b ↔ (∃ k : ℕ, i = a + 2 * k) ∧ i < b := by
  unfold intRange2
  rw [mem_intRange2Aux]
  constructor
  · rintro ⟨k, hk, rfl⟩
    exact ⟨⟨k, rfl⟩, by omega⟩
  · rintro ⟨⟨k, rfl⟩, hlt⟩
    exact ⟨k, by omega, rfl⟩

/-- Row-major iteration sequence of a nested loop over the inclusive cell
rectangle `[x1,x2] × [z1,z2]`: pairs `(y, x)`, outer loop `y`, inner `x`. -/
def rectCells (x1 z1 x2 z2 : Int) : List (Int × Int) :=
  (intRange z1 (z2 + 1)).flatMap (fun y => (intRange x1 (x2 + 1)).map (fun x => (y, x)))

theorem mem_rectCells {x1 z1 x2 z2 : Int} {p : Int × Int} :
    p ∈ rectCells x1 z1 x2 z2 ↔ z1 ≤ p.1 ∧ p.1 ≤ z2 ∧ x1 ≤ p.2 ∧ p.2 ≤ x2 := by
  rcases p with ⟨y, x⟩
  simp only [rectCells, List.mem_flatMap, List.mem_map, mem_intRange]
  constructor
  · rintro ⟨y', ⟨hy1, hy2⟩, x', ⟨hx1, hx2⟩, he⟩
    cases he
    exact ⟨hy1, by omega, hx1, by omega⟩
  · rintro ⟨h1, h2, h3, h4⟩
    exact ⟨y, ⟨h1, by omega⟩, x, ⟨h3, by omega⟩, rfl⟩

/-- Like `rectCells` but both loops have stride 2 and exclusive upper
bounds (the mip-map block loops). -/
def rectCells2 (sx sy ex ey : Int) : List (Int × Int) :=
  (intRange2 sy ey).flatMap (fun y => (intRange2 sx ex).map (fun x => (y, x)))

theorem mem_rectCells2 {sx sy ex ey : Int} {p : Int × Int} :
    p ∈ rectCells2 sx sy ex ey ↔
      ((∃ k : ℕ, p.1 = sy + 2 * k) ∧ p.1 < ey) ∧ ((∃ k : ℕ, p.2 = sx + 2 * k) ∧ p.2 < ex) := by
  rcases p with ⟨y, x⟩
  simp only [rectCells2, List.mem_flatMap, List.mem_map, mem_intRange2]
  constructor
  · rintro ⟨y', hy, x', hx, he⟩
    cases he
    exact ⟨hy, hx⟩
  · rintro ⟨hy, hx⟩
    exact ⟨y, hy, x, hx, rfl⟩

/-! ## Data model (ReadMap.cpp / CReadMap)

Map dimensions: `mapx`/`mapy` are the horizontal/vertical square counts
(`mapDims.mapx`, `mapDims.mapy`); derived quantities `mapxm1 = mapx - 1`,
`mapxp1 = mapx + 1`, `hmapx = mapx >> 1` (from `MapDimensions::Initialize`,
which is not among the sources; the spec fixes the slope/type grids at half
the square grid in each axis) are inlined at use sites. -/

/-- Rectangle of map squares, inclusive bounds, as in the source's
`SRectangle {x1, z1, x2, z2}`. -/
structure SRectangle where
  x1 : Int
  z1 : Int
  x2 : Int
  z2 : Int
deriving DecidableEq

/-- Horizontal size of one map square (`SQUARE_SIZE`, constant 8 in the
source headers, which are not among the sources; only its positivity
matters for the theorems below). -/
def SQUARE_SIZE : ℝ := 8

/-- Three-component vector of the source's `float3`, modelled over `ℝ`
since the source normalizes with a square root. -/
structure float3 where
  x : ℝ
  y : ℝ
  z : ℝ

instance : Add float3 :=
  ⟨fun a b => ⟨a.x + b.x, a.y + b.y, a.z + b.z⟩⟩

theorem float3.add_def (a b : float3) :
    a + b = ⟨a.x + b.x, a.y + b.y, a.z + b.z⟩ := rfl

/-- Squared length of a `float3` (`float3::SqLength`). -/
def float3.SqLength (v : float3) : ℝ := v.x * v.x + v.y * v.y + v.z * v.z

/-- Modelled from the spec: `float3::Normalize` lives in a header that is
not among the sources; the spec requires face normals to be unit length, so
normalization is division by the Euclidean length. -/
noncomputable def float3.Normalize (v : float3) : float3 :=
  let d := Real.sqrt v.SqLength
  ⟨v.x / d, v.y / d, v.z / d⟩

/-- Modelled from the spec: `float3::Normalize2D` (header not among the
sources) normalizes the vector restricted to the horizontal plane. -/
noncomputable def float3.Normalize2D (v : float3) : float3 :=
  float3.Normalize ⟨v.x, 0, v.z⟩

/-- Modelled from the spec: `mix` from the `SpringMath` header (not among
the sources) is the standard linear interpolation `a + (b - a) * x`; the
spec's design note quotes the slope blend as
`mix(maxslope, avgslope, maxslope/avgslope)` with exactly this reading. -/
def mix (a b x : ℝ) : ℝ := a + (b - a) * x

/-- Derived-buffer state of `CReadMap` touched by the synced derivation
pipeline.  `mipCenterHeightMaps i` is mip level `i + 1`; level 0 is
`centerHeightMap` itself (`mipPointerHeightMaps[0]` aliases it). -/
structure DState where
  centerHeightMap : Int → ℚ
  mipCenterHeightMaps : ℕ → Int → ℚ
  faceNormalsSynced : Int → float3
  faceNormalsUnsynced : Int → float3
  centerNormalsSynced : Int → float3
  centerNormalsUnsynced : Int → float3
  centerNormals2D : Int → float3
  slopeMap : Int → ℝ

/-- The mip pointer table: level 0 aliases the center height map, level
`i + 1` is `mipCenterHeightMaps[i]`. -/
def mipPointerHeightMaps (s : DState) : ℕ → Int → ℚ
  | 0 => s.centerHeightMap
  | i + 1 => s.mipCenterHeightMaps i

/-! ## DerivationPipeline (CReadMap::Update*) -/

/-- Value stored for square `(x, y)` by `CReadMap::UpdateCenterHeightmap`:
the sum of the four corner heights times `0.25f`. -/
def centerHeightValue (mapx : Int) (heightmapSynced : Int → ℚ) (x y : Int) : ℚ :=
  let mapxp1 := mapx + 1
  let idxTL := (y + 0) * mapxp1 + x + 0
  let idxTR := (y + 0) * mapxp1 + x + 1
  let idxBL := (y + 1) * mapxp1 + x + 0
  let idxBR := (y + 1) * mapxp1 + x + 1
  (heightmapSynced idxTL + heightmapSynced idxTR +
   heightmapSynced idxBL + heightmapSynced idxBR) * (1 / 4)

/-- Store sequence of `CReadMap::UpdateCenterHeightmap`'s loop nest over
the inclusive rectangle (row-major, one store per square). -/
def centerWrites (mapx : Int) (heightmapSynced : Int → ℚ) (rect : SRectangle) :
    List (Int × ℚ) :=
  (rectCells rect.x1 rect.z1 rect.x2 rect.z2).map
    (fun p => (p.1 * mapx + p.2, centerHeightValue mapx heightmapSynced p.2 p.1))

/-- `CReadMap::UpdateCenterHeightmap` (the per-row `for_mt_chunk` tasks own
disjoint rows, so the parallel loop equals the sequential row-major one). -/
def UpdateCenterHeightmap (mapx : Int) (heightmapSynced : Int → ℚ) (rect : SRectangle)
    (s : DState) : DState :=
  { s with centerHeightMap := writeList (centerWrites mapx heightmapSynced rect) s.centerHeightMap }

/-- Store sequence of one level of `CReadMap::UpdateMipHeightmaps`: pass
`i` reads `mipPointerHeightMaps[i]` (`topMipMap`, width `mapx >> i`) and
writes `mipPointerHeightMaps[i+1]` (`subMipMap`) on even-aligned 2×2
blocks; `sx = (rect.x1 >> i) & ~1` is translated as subtracting the low
bit, and the C index expression `(x / 2) + (y / 2) * hmapx / 2` keeps its
left-to-right grouping `(x / 2) + ((y / 2) * hmapx) / 2`. -/
def mipPassWrites (mapx : Int) (i : ℕ) (rect : SRectangle) (topMipMap : Int → ℚ) :
    List (Int × ℚ) :=
  let hmapx := mapx >>> i
  let sx := (rect.x1 >>> i) - (rect.x1 >>> i) % 2
  let ex := rect.x2 >>> i
  let sy := (rect.z1 >>> i) - (rect.z1 >>> i) % 2
  let ey := rect.z2 >>> i
  (rectCells2 sx sy ex ey).map (fun p =>
    ((p.2 / 2) + (p.1 / 2) * hmapx / 2,
     (topMipMap (p.2 + p.1 * hmapx) + topMipMap (p.2 + (p.1 + 1) * hmapx) +
      topMipMap ((p.2 + 1) + p.1 * hmapx) + topMipMap ((p.2 + 1) + (p.1 + 1) * hmapx)) * (1 / 4)))

/-- One iteration of `CReadMap::UpdateMipHeightmaps`'s outer loop: replay
pass `i`'s stores into `mipPointerHeightMaps[i+1] = mipCenterHeightMaps[i]`,
reading `mipPointerHeightMaps[i]`. -/
def mipPassStep (mapx : Int) (rect : SRectangle) (t : DState) (i : ℕ) : DState :=
  { t with mipCenterHeightMaps := fun j =>
      if j = i then
        (writeList (mipPassWrites mapx i rect (mipPointerHeightMaps t i))
          (t.mipCenterHeightMaps i))
      else t.mipCenterHeightMaps j }

/-- `CReadMap::UpdateMipHeightmaps`: sequential passes `i = 0, ...,
numHeightMipMaps - 2`, each updating mip level `i + 1` from level `i`. -/
def UpdateMipHeightmaps (mapx : Int) (numHeightMipMaps : ℕ) (rect : SRectangle)
    (s : DState) : DState :=
  (List.range (numHeightMipMaps - 1)).foldl (mipPassStep mapx rect) s

/-- Normal of the top-left triangle of square `(x, y)` as assembled and
normalized by `CReadMap::UpdateFaceNormals`. -/
noncomputable def fnTL (mapx : Int) (heightmapSynced : Int → ℚ) (x y : Int) : float3 :=
  let mapxp1 := mapx + 1
  let hTL : ℝ := (heightmapSynced (y * mapxp1 + x) : ℚ)
  let hTR : ℝ := (heightmapSynced (y * mapxp1 + x + 1) : ℚ)
  let hBL : ℝ := (heightmapSynced ((y + 1) * mapxp1 + x) : ℚ)
  float3.Normalize ⟨-(hTR - hTL), SQUARE_SIZE, -(hBL - hTL)⟩

/-- Normal of the bottom-right triangle of square `(x, y)` as assembled and
normalized by `CReadMap::UpdateFaceNormals`. -/
noncomputable def fnBR (mapx : Int) (heightmapSynced : Int → ℚ) (x y : Int) : float3 :=
  let mapxp1 := mapx + 1
  let hTR : ℝ := (heightmapSynced (y * mapxp1 + x + 1) : ℚ)
  let hBL : ℝ := (heightmapSynced ((y + 1) * mapxp1 + x) : ℚ)
  let hBR : ℝ := (heightmapSynced ((y + 1) * mapxp1 + x + 1) : ℚ)
  float3.Normalize ⟨hBL - hBR, SQUARE_SIZE, hTR - hBR⟩

/-- The expanded-and-clamped region of `CReadMap::UpdateFaceNormals`
(`z1 = max(0, rect.z1 - 1)`, ..., `x2 = min(mapxm1, rect.x2 + 1)`). -/
def faceNormalRect (mapx mapy : Int) (rect : SRectangle) : SRectangle :=
  { x1 := max 0 (rect.x1 - 1), z1 := max 0 (rect.z1 - 1),
    x2 := min (mapx - 1) (rect.x2 + 1), z2 := min (mapy - 1) (rect.z2 + 1) }

/-- Stores of `CReadMap::UpdateFaceNormals` into `faceNormalsSynced`: two
per square, at `(y * mapx + x) * 2` and `(y * mapx + x) * 2 + 1`. -/
noncomputable def faceWrites (mapx mapy : Int) (heightmapSynced : Int → ℚ)
    (rect : SRectangle) : List (Int × float3) :=
  let r := faceNormalRect mapx mapy rect
  (rectCells r.x1 r.z1 r.x2 r.z2).flatMap (fun p =>
    [((p.1 * mapx + p.2) * 2, fnTL mapx heightmapSynced p.2 p.1),
     ((p.1 * mapx + p.2) * 2 + 1, fnBR mapx heightmapSynced p.2 p.1)])

/-- Stores of `CReadMap::UpdateFaceNormals` into `centerNormalsSynced`:
the normalized sum of the square's two face normals. -/
noncomputable def centerNormalWrites (mapx mapy : Int) (heightmapSynced : Int → ℚ)
    (rect : SRectangle) : List (Int × float3) :=
  let r := faceNormalRect mapx mapy rect
  (rectCells r.x1 r.z1 r.x2 r.z2).map (fun p =>
    (p.1 * mapx + p.2,
     float3.Normalize (fnTL mapx heightmapSynced p.2 p.1 + fnBR mapx heightmapSynced p.2 p.1)))

/-- Stores of `CReadMap::UpdateFaceNormals` into `centerNormals2D`. -/
noncomputable def centerNormal2DWrites (mapx mapy : Int) (heightmapSynced : Int → ℚ)
    (rect : SRectangle) : List (Int × float3) :=
  let r := faceNormalRect mapx mapy rect
  (rectCells r.x1 r.z1 r.x2 r.z2).map (fun p =>
    (p.1 * mapx + p.2,
     float3.Normalize2D (fnTL mapx heightmapSynced p.2 p.1 + fnBR mapx heightmapSynced p.2 p.1)))

/-- `CReadMap::UpdateFaceNormals`.  The source's single loop body stores
into the synced face/center/2D normal buffers each iteration; the stores
are grouped here per destination buffer (same indices, same values, and
the buffers are distinct arrays).  When `isInitialLoad` is set
(`USE_UNSYNCED_HEIGHTMAP` builds), the body also copies the
freshly-assigned synced entries into the unsynced buffers, i.e. stores the
identical values at the identical indices. -/
noncomputable def UpdateFaceNormals (mapx mapy : Int) (heightmapSynced : Int → ℚ)
    (rect : SRectangle) (isInitialLoad : Bool) (s : DState) : DState :=
  { s with
    faceNormalsSynced :=
      writeList (faceWrites mapx mapy heightmapSynced rect) s.faceNormalsSynced,
    centerNormalsSynced :=
      writeList (centerNormalWrites mapx mapy heightmapSynced rect) s.centerNormalsSynced,
    centerNormals2D :=
      writeList (centerNormal2DWrites mapx mapy heightmapSynced rect) s.centerNormals2D,
    faceNormalsUnsynced :=
      if isInitialLoad then
        writeList (faceWrites mapx mapy heightmapSynced rect) s.faceNormalsUnsynced
      else s.faceNormalsUnsynced,
    centerNormalsUnsynced :=
      if isInitialLoad then
        writeList (centerNormalWrites mapx mapy heightmapSynced rect) s.centerNormalsUnsynced
      else s.centerNormalsUnsynced }

/-- Slope blend of `CReadMap::UpdateSlopemap`'s loop body applied to the
eight loaded face-normal `y` components: the running average `avgslope`
(`*0.125f`), the running minimum `maxslope` (the `std::min` chain in
source order), the ratio blend `mix(maxslope, avgslope,
maxslope/avgslope)`, and the final store of `1.0f - slope`. -/
noncomputable def slopeBlend (y0 y1 y2 y3 y4 y5 y6 y7 : ℝ) : ℝ :=
  let avgslope := (y0 + y1 + y2 + y3 + y4 + y5 + y6 + y7) * (1 / 8)
  let maxslope := min (min (min (min (min (min (min y0 y1) y2) y3) y4) y5) y6) y7
  let lerp := maxslope / avgslope
  let slope := mix maxslope avgslope lerp
  1 - slope

/-- Slope value stored for half-resolution cell `(x, y)` by
`CReadMap::UpdateSlopemap`: the blend of the eight covering face-normal
`y` components, loaded in source order. -/
noncomputable def slopeValue (mapx : Int) (faceNormals : Int → float3) (x y : Int) : ℝ :=
  let idx0 := (y * 2) * mapx + x * 2
  let idx1 := (y * 2 + 1) * mapx + x * 2
  slopeBlend
    ((faceNormals (idx0 * 2)).y) ((faceNormals (idx0 * 2 + 1)).y)
    ((faceNormals ((idx0 + 1) * 2)).y) ((faceNormals ((idx0 + 1) * 2 + 1)).y)
    ((faceNormals (idx1 * 2)).y) ((faceNormals (idx1 * 2 + 1)).y)
    ((faceNormals ((idx1 + 1) * 2)).y) ((faceNormals ((idx1 + 1) * 2 + 1)).y)

/-- Stores of `CReadMap::UpdateSlopemap` over the half-resolution grid
(`hmapx = mapx >> 1`, see `MapDimensions`); bounds `sx = max(0, x1/2 - 1)`,
`ex = min(hmapx - 1, x2/2 + 1)` etc. as in the source. -/
noncomputable def slopeWrites (mapx mapy : Int) (faceNormals : Int → float3)
    (rect : SRectangle) : List (Int × ℝ) :=
  let hmapx := mapx / 2
  let hmapy := mapy / 2
  let sx := max 0 (rect.x1 / 2 - 1)
  let ex := min (hmapx - 1) (rect.x2 / 2 + 1)
  let sy := max 0 (rect.z1 / 2 - 1)
  let ey := min (hmapy - 1) (rect.z2 / 2 + 1)
  (rectCells sx sy ex ey).map
    (fun p => (p.1 * hmapx + p.2, slopeValue mapx faceNormals p.2 p.1))

/-- `CReadMap::UpdateSlopemap` (runs after `UpdateFaceNormals`; it reads
`faceNormalsSynced`). -/
noncomputable def UpdateSlopemap (mapx mapy : Int) (rect : SRectangle) (s : DState) : DState :=
  { s with slopeMap :=
      writeList (slopeWrites mapx mapy s.faceNormalsSynced rect) s.slopeMap }

/-- The clamped one-cell-expanded center rectangle computed by
`CReadMap::UpdateHeightMapSynced` (clamped to `map{x,y}m1`, the inclusive
bounds of the center height map). -/
def clampedCenterRect (mapx mapy : Int) (hgtMapRect : SRectangle) : SRectangle :=
  { x1 := max (hgtMapRect.x1 - 1) 0, z1 := max (hgtMapRect.z1 - 1) 0,
    x2 := min (hgtMapRect.x2 + 1) (mapx - 1), z2 := min (hgtMapRect.z2 + 1) (mapy - 1) }

/-- The clamped one-cell-expanded corner rectangle computed by
`CReadMap::UpdateHeightMapSynced` (clamped inclusively to `map{x,y}` since
it indexes corner heightmaps); it is only handed to the unsynced-update
queue, not to the derivation steps. -/
def clampedCornerRect (mapx mapy : Int) (hgtMapRect : SRectangle) : SRectangle :=
  { x1 := max (hgtMapRect.x1 - 1) 0, z1 := max (hgtMapRect.z1 - 1) 0,
    x2 := min (hgtMapRect.x2 + 1) mapx, z2 := min (hgtMapRect.z2 + 1) mapy }

/-- Derived-buffer effect of `CReadMap::UpdateHeightMapSynced`: clamp the
expanded rectangle, then run the four derivation steps in dependency
order.  (`initialize` is true exactly for the whole-map rectangle.  The
function's tail only pushes the corner rectangle onto the unsynced-update
queue — `unsyncedHeightMapUpdates`, drained by `UpdateDraw`, modelled
separately below — and touches no derived buffer.) -/
noncomputable def UpdateHeightMapSynced (mapx mapy : Int) (numHeightMipMaps : ℕ)
    (heightmapSynced : Int → ℚ) (hgtMapRect : SRectangle) (s : DState) : DState :=
  let isInitialLoad : Bool := hgtMapRect = SRectangle.mk 0 0 mapx mapy
  let centerRect := clampedCenterRect mapx mapy hgtMapRect
  UpdateSlopemap mapx mapy centerRect
    (UpdateFaceNormals mapx mapy heightmapSynced centerRect isInitialLoad
      (UpdateMipHeightmaps mapx numHeightMipMaps centerRect
        (UpdateCenterHeightmap mapx heightmapSynced centerRect s)))

/-! ## BoundsTracker (CReadMap::UpdateHeightBounds, UpdateTempHeightBoundsSIMD) -/

/-- Pair of rationals standing for the source's `float2`; `.x` is the
running minimum and `.y` the running maximum of the bounds code. -/
structure float2 where
  x : ℚ
  y : ℚ
deriving DecidableEq

/-- Exact value of `std::numeric_limits<float>::max()`,
`(2^24 - 1) * 2^104`. -/
def floatMax : ℚ := (2 ^ 24 - 1) * 2 ^ 104

/-- Exact value of `std::numeric_limits<float>::lowest()`. -/
def floatLowest : ℚ := -floatMax

/-- Height-bounds state of `CReadMap` (fields as in the source). -/
structure HeightBoundsState where
  tempHeightBounds : float2
  currHeightBounds : float2
  processingHeightBounds : Bool
  hmUpdated : Bool
deriving DecidableEq

/-- `CReadMap::UpdateTempHeightBoundsSIMD`: fold the synced heights of
`[idxBeg, idxEnd)` into the temporary bounds.  The source's xsimd lane
decomposition (vector loop over the aligned prefix, horizontal lane fold,
scalar remainder) initializes every lane accumulator with the previous
bounds and visits each element exactly once; since `min`/`max` are
associative, commutative and idempotent, in exact arithmetic its result is
this scalar left fold. -/
def UpdateTempHeightBoundsSIMD (heightMapSynced : Int → ℚ) (idxBeg idxEnd : Int)
    (tb : float2) : float2 :=
  (intRange idxBeg idxEnd).foldl
    (fun tb idx => ⟨min (heightMapSynced idx) tb.x, max (heightMapSynced idx) tb.y⟩) tb

/-- `CReadMap::UpdateHeightBounds(int syncFrame)`, the paced partial scan.
`PACING_PERIOD` is the source's `GAME_SPEED` (a positive header constant
not among the sources, hence a parameter).  On slice 0 the previous
cycle's provisional bounds are committed (when a cycle was running) and a
new cycle starts iff the grid was touched; every running slice folds
`[dataChunk*N/P, (dataChunk+1)*N/P)` of the `(mapx+1)*(mapy+1)` corner
heights into the provisional bounds. -/
def UpdateHeightBounds (mapx mapy PACING_PERIOD : Int) (heightMapSynced : Int → ℚ)
    (syncFrame : Int) (s : HeightBoundsState) : HeightBoundsState :=
  let dataChunk := syncFrame % PACING_PERIOD
  let s1 :=
    if dataChunk = 0 then
      { s with
        currHeightBounds :=
          if s.processingHeightBounds then s.tempHeightBounds else s.currHeightBounds,
        processingHeightBounds := s.hmUpdated,
        hmUpdated := false }
    else s
  if s1.processingHeightBounds = false then s1
  else
    let s2 :=
      if dataChunk = 0 then
        { s1 with tempHeightBounds := ⟨floatMax, floatLowest⟩ }
      else s1
    let idxBeg := (dataChunk + 0) * ((mapx + 1) * (mapy + 1)) / PACING_PERIOD
    let idxEnd := (dataChunk + 1) * ((mapx + 1) * (mapy + 1)) / PACING_PERIOD
    { s2 with tempHeightBounds :=
        UpdateTempHeightBoundsSIMD heightMapSynced idxBeg idxEnd s2.tempHeightBounds }

/-- `CReadMap::UpdateHeightBounds()`, the full single-pass rescan: reset
the temporary bounds, fold the whole corner grid, commit to
`currHeightBounds`. -/
def UpdateHeightBoundsFull (mapx mapy : Int) (heightMapSynced : Int → ℚ)
    (s : HeightBoundsState) : HeightBoundsState :=
  let tb := UpdateTempHeightBoundsSIMD heightMapSynced 0 ((mapx + 1) * (mapy + 1))
    ⟨floatMax, floatLowest⟩
  { s with tempHeightBounds := tb, currHeightBounds := ⟨tb.x, tb.y⟩ }

/-- Run of `n` consecutive paced calls `UpdateHeightBounds(f), ...,
UpdateHeightBounds(f + n - 1)` (one call per simulation frame). -/
def UpdateHeightBoundsRun (mapx mapy PACING_PERIOD : Int) (heightMapSynced : Int → ℚ)
    (f : Int) (n : ℕ) (s : HeightBoundsState) : HeightBoundsState :=
  (List.range n).foldl
    (fun st (j : ℕ) =>
      UpdateHeightBounds mapx mapy PACING_PERIOD heightMapSynced (f + (j : Int)) st) s

/-! ## ChecksumEngine differential persistence (CReadMap::SerializeMapChanges) -/

/-- Writing direction of `CReadMap::SerializeMapChanges`: the heightmap
words are reinterpreted as 32-bit integers and each modified word is
streamed XOR'd with the reference word, in linear (row-major) index order
over all `mapxp1 * mapyp1` words.  Words are modelled as naturals (bit
patterns; `Nat.xor` agrees with 32-bit XOR on values below `2^32`). -/
def SerializeMapChangesWrite (numWords : ℕ) (refHeightMap modifiedHeightMap : ℕ → ℕ) :
    List ℕ :=
  (List.range numWords).map (fun i => Nat.xor (modifiedHeightMap i) (refHeightMap i))

/-- Reading direction of `CReadMap::SerializeMapChanges`: each streamed
word is XOR'd with the reference word and stored back into the modified
heightmap at the same index; indices beyond the stream keep the buffer's
previous contents. -/
def SerializeMapChangesRead (refHeightMap : ℕ → ℕ) (stream : List ℕ)
    (modifiedHeightMap : ℕ → ℕ) : ℕ → ℕ :=
  fun i => if i < stream.length then Nat.xor (stream.getD i 0) (refHeightMap i)
    else modifiedHeightMap i

/-! ## VisibilityGatedSync drain (CReadMap::UpdateDraw) -/

/-- Per-frame cap on drained unsynced-update rectangles
(`MAX_UHM_RECTS_PER_FRAME`). -/
def MAX_UHM_RECTS_PER_FRAME : ℕ := 128

/-- Modelled from the spec: `unsyncedHeightMapUpdates.Process` belongs to
the queue container type, which is not among the sources; the spec says
insertion order is FIFO and adjacent rectangles *may* be merged, so the
layout optimization is modelled as the identity reordering. -/
def Process (q : List SRectangle) (firstCall : Bool) : List SRectangle := q

/-- `CReadMap::UpdateDraw`: drain up to `MAX_UHM_RECTS_PER_FRAME` pending
rectangles from the queue front — for each, the unsynced heightmap is
updated, then the event sink notified, then the entry popped.  Returns the
pair (drained rectangles in order, remaining queue). -/
def UpdateDraw (firstCall : Bool) (unsyncedHeightMapUpdates : List SRectangle) :
    List SRectangle × List SRectangle :=
  if unsyncedHeightMapUpdates.isEmpty then ([], unsyncedHeightMapUpdates)
  else
    let q := Process unsyncedHeightMapUpdates firstCall
    let N := min MAX_UHM_RECTS_PER_FRAME q.length
    (q.take N, q.drop N)

/-! ## Initialization (CReadMap::Initialize) -/

/-- Errors raised during map initialization. -/
inductive MapInitError where
  | ConfigurationError
deriving DecidableEq

/-- Modelled from the spec: the dimension validation sits in
`mapDims.Initialize()` / the loader, which are not among the sources; per
the spec, initialization fails with `ConfigurationError` whenever the map
dimensions are not divisible by `2^(L-1)` (not representable at every mip
level). -/
def CheckMapMipDims (numHeightMipMaps : ℕ) (mapx mapy : Int) : Except MapInitError Unit :=
  if mapx % 2 ^ (numHeightMipMaps - 1) = 0 ∧ mapy % 2 ^ (numHeightMipMaps - 1) = 0 then
    Except.ok ()
  else
    Except.error MapInitError.ConfigurationError

/-- `CReadMap::Initialize`: validate dimensions (spec-modelled, see
`CheckMapMipDims`), then — after allocating all buffers — run the
derivation pipeline once over the whole map
(`UpdateHeightMapSynced({0, 0, mapx, mapy})`). -/
noncomputable def Initialize (numHeightMipMaps : ℕ) (mapx mapy : Int)
    (heightmapSynced : Int → ℚ) (s : DState) : Except MapInitError DState :=
  match CheckMapMipDims numHeightMipMaps mapx mapy with
  | Except.error e => Except.error e
  | Except.ok _ => Except.ok
      (UpdateHeightMapSynced mapx mapy numHeightMipMaps heightmapSynced
        (SRectangle.mk 0 0 mapx mapy) s)

/-! ## Index sets (buffer-safety bookkeeping for the pipeline)

For each derivation step, the list of linear indices its loop body reads;
the indices it writes are the keys of the corresponding `*Writes` list.
These mirror the source index expressions one-to-one. -/

/-- Corner-heightmap indices read by `CReadMap::UpdateCenterHeightmap`. -/
def centerReadIndices (mapx : Int) (rect : SRectangle) : List Int :=
  let mapxp1 := mapx + 1
  (rectCells rect.x1 rect.z1 rect.x2 rect.z2).flatMap (fun p =>
    [(p.1 + 0) * mapxp1 + p.2 + 0, (p.1 + 0) * mapxp1 + p.2 + 1,
     (p.1 + 1) * mapxp1 + p.2 + 0, (p.1 + 1) * mapxp1 + p.2 + 1])

/-- Level-`i` (`topMipMap`) indices read by pass `i` of
`CReadMap::UpdateMipHeightmaps`. -/
def mipPassReadIndices (mapx : Int) (i : ℕ) (rect : SRectangle) : List Int :=
  let hmapx := mapx >>> i
  let sx := (rect.x1 >>> i) - (rect.x1 >>> i) % 2
  let ex := rect.x2 >>> i
  let sy := (rect.z1 >>> i) - (rect.z1 >>> i) % 2
  let ey := rect.z2 >>> i
  (rectCells2 sx sy ex ey).flatMap (fun p =>
    [p.2 + p.1 * hmapx, p.2 + (p.1 + 1) * hmapx,
     (p.2 + 1) + p.1 * hmapx, (p.2 + 1) + (p.1 + 1) * hmapx])

/-- Corner-heightmap indices read by `CReadMap::UpdateFaceNormals`
(`idxTL`, `idxTL + 1`, `idxBL`, `idxBL + 1` per square). -/
def faceReadIndices (mapx mapy : Int) (rect : SRectangle) : List Int :=
  let mapxp1 := mapx + 1
  let r := faceNormalRect mapx mapy rect
  (rectCells r.x1 r.z1 r.x2 r.z2).flatMap (fun p =>
    [p.1 * mapxp1 + p.2, p.1 * mapxp1 + p.2 + 1,
     (p.1 + 1) * mapxp1 + p.2, (p.1 + 1) * mapxp1 + p.2 + 1])

/-- Synced-face-normal indices read by `CReadMap::UpdateSlopemap` (eight
per half-resolution cell). -/
def slopeReadIndices (mapx mapy : Int) (rect : SRectangle) : List Int :=
  let hmapx := mapx / 2
  let hmapy := mapy / 2
  let sx := max 0 (rect.x1 / 2 - 1)
  let ex := min (hmapx - 1) (rect.x2 / 2 + 1)
  let sy := max 0 (rect.z1 / 2 - 1)
  let ey := min (hmapy - 1) (rect.z2 / 2 + 1)
  (rectCells sx sy ex ey).flatMap (fun p =>
    let idx0 := (p.1 * 2) * mapx + p.2 * 2
    let idx1 := (p.1 * 2 + 1) * mapx + p.2 * 2
    [idx0 * 2, idx0 * 2 + 1, (idx0 + 1) * 2, (idx0 + 1) * 2 + 1,
     idx1 * 2, idx1 * 2 + 1, (idx1 + 1) * 2, (idx1 + 1) * 2 + 1])

/-- All loads and stores of one `UpdateHeightMapSynced(R)` stay inside the
allocated buffer ranges: corner heightmap `(mapx+1)*(mapy+1)`, center
heightmap `mapx*mapy`, mip level `l` `(mapx >> l)*(mapy >> l)`, face
normals `mapx*mapy*2`, center normals `mapx*mapy`, slope map
`(mapx/2)*(mapy/2)`. -/
def PipelineIndexSafety (mapx mapy : Int) (numHeightMipMaps : ℕ)
    (heightmapSynced : Int → ℚ) (faceNormals : Int → float3) (R : SRectangle) : Prop :=
  let rect := clampedCenterRect mapx mapy R
  (∀ kv ∈ centerWrites mapx heightmapSynced rect, 0 ≤ kv.1 ∧ kv.1 < mapx * mapy) ∧
  (∀ k ∈ centerReadIndices mapx rect, 0 ≤ k ∧ k < (mapx + 1) * (mapy + 1)) ∧
  (∀ i : ℕ, i < numHeightMipMaps - 1 →
    (∀ kv ∈ mipPassWrites mapx i rect heightmapSynced,
      0 ≤ kv.1 ∧ kv.1 < (mapx >>> (i + 1)) * (mapy >>> (i + 1))) ∧
    (∀ k ∈ mipPassReadIndices mapx i rect, 0 ≤ k ∧ k < (mapx >>> i) * (mapy >>> i))) ∧
  (∀ kv ∈ faceWrites mapx mapy heightmapSynced rect, 0 ≤ kv.1 ∧ kv.1 < mapx * mapy * 2) ∧
  (∀ kv ∈ centerNormalWrites mapx mapy heightmapSynced rect,
    0 ≤ kv.1 ∧ kv.1 < mapx * mapy) ∧
  (∀ k ∈ faceReadIndices mapx mapy rect, 0 ≤ k ∧ k < (mapx + 1) * (mapy + 1)) ∧
  (∀ kv ∈ slopeWrites mapx mapy faceNormals rect,
    0 ≤ kv.1 ∧ kv.1 < (mapx / 2) * (mapy / 2)) ∧
  (∀ k ∈ slopeReadIndices mapx mapy rect, 0 ≤ k ∧ k < mapx * mapy * 2)

/-! ## Shared helper lemmas -/

/-- Row-major linear indices are injective on a row of width `w` when the
column offsets lie in `[0, w)`. -/
theorem rowMajor_inj {w x x' y y' : Int} (hw : 0 < w) (hx : 0 ≤ x) (hxw : x < w)
    (hx' : 0 ≤ x') (hxw' : x' < w) (h : y' * w + x' = y * w + x) : y' = y ∧ x' = x := by
  have e1 : (y' * w + x') % w = x' := by
    rw [add_comm (y' * w) x', mul_comm y' w, Int.add_mul_emod_self_left,
      Int.emod_eq_of_lt hx' hxw']
  have e2 : (y * w + x) % w = x := by
    rw [add_comm (y * w) x, mul_comm y w, Int.add_mul_emod_self_left,
      Int.emod_eq_of_lt hx hxw]
  have hxx : x' = x := by rw [h, e2] at e1; exact e1.symm
  refine ⟨?_, hxx⟩
  have : y' * w = y * w := by omega
  exact mul_right_cancel₀ (ne_of_gt hw) this

theorem mipPassStep_centerHeightMap (mapx : Int) (rect : SRectangle) (t : DState) (i : ℕ) :
    (mipPassStep mapx rect t i).centerHeightMap = t.centerHeightMap := rfl

theorem mipPassStep_get (mapx : Int) (rect : SRectangle) (t : DState) (i j : ℕ) :
    (mipPassStep mapx rect t i).mipCenterHeightMaps j =
      if j = i then
        (writeList (mipPassWrites mapx i rect (mipPointerHeightMaps t i))
          (t.mipCenterHeightMaps i))
      else t.mipCenterHeightMaps j := rfl

theorem UpdateMipHeightmaps_eq_foldl (mapx : Int) (L : ℕ) (rect : SRectangle) (s : DState) :
    UpdateMipHeightmaps mapx L rect s =
      (List.range (L - 1)).foldl (mipPassStep mapx rect) s := rfl

theorem mipFoldl_centerHeightMap (mapx : Int) (rect : SRectangle) (l : List ℕ) (s : DState) :
    ((l.foldl (mipPassStep mapx rect) s).centerHeightMap) = s.centerHeightMap := by
  induction l generalizing s with
  | nil => rfl
  | cons i t ih => rw [List.foldl_cons, ih, mipPassStep_centerHeightMap]

theorem mipFoldl_faceNormalsSynced (mapx : Int) (rect : SRectangle) (l : List ℕ) (s : DState) :
    ((l.foldl (mipPassStep mapx rect) s).faceNormalsSynced) = s.faceNormalsSynced := by
  induction l generalizing s with
  | nil => rfl
  | cons i t ih => rw [List.foldl_cons, ih]; rfl

theorem mipFoldl_faceNormalsUnsynced (mapx : Int) (rect : SRectangle) (l : List ℕ)
    (s : DState) :
    ((l.foldl (mipPassStep mapx rect) s).faceNormalsUnsynced) = s.faceNormalsUnsynced := by
  induction l generalizing s with
  | nil => rfl
  | cons i t ih => rw [List.foldl_cons, ih]; rfl

theorem mipFoldl_centerNormalsSynced (mapx : Int) (rect : SRectangle) (l : List ℕ)
    (s : DState) :
    ((l.foldl (mipPassStep mapx rect) s).centerNormalsSynced) = s.centerNormalsSynced := by
  induction l generalizing s with
  | nil => rfl
  | cons i t ih => rw [List.foldl_cons, ih]; rfl

theorem mipFoldl_centerNormalsUnsynced (mapx : Int) (rect : SRectangle) (l : List ℕ)
    (s : DState) :
    ((l.foldl (mipPassStep mapx rect) s).centerNormalsUnsynced) = s.centerNormalsUnsynced := by
  induction l generalizing s with
  | nil => rfl
  | cons i t ih => rw [List.foldl_cons, ih]; rfl

theorem mipFoldl_centerNormals2D (mapx : Int) (rect : SRectangle) (l : List ℕ) (s : DState) :
    ((l.foldl (mipPassStep mapx rect) s).centerNormals2D) = s.centerNormals2D := by
  induction l generalizing s with
  | nil => rfl
  | cons i t ih => rw [List.foldl_cons, ih]; rfl

theorem mipFoldl_slopeMap (mapx : Int) (rect : SRectangle) (l : List ℕ) (s : DState) :
    ((l.foldl (mipPassStep mapx rect) s).slopeMap) = s.slopeMap := by
  induction l generalizing s with
  | nil => rfl
  | cons i t ih => rw [List.foldl_cons, ih]; rfl

theorem UpdateHeightMapSynced_centerHeightMap (mapx mapy : Int) (L : ℕ)
    (heightmapSynced : Int → ℚ) (R : SRectangle) (s : DState) :
    (UpdateHeightMapSynced mapx mapy L heightmapSynced R s).centerHeightMap =
      writeList (centerWrites mapx heightmapSynced (clampedCenterRect mapx mapy R))
        s.centerHeightMap := by
  show ((List.range (L - 1)).foldl (mipPassStep mapx (clampedCenterRect mapx mapy R))
    (UpdateCenterHeightmap mapx heightmapSynced (clampedCenterRect mapx mapy R) s)).centerHeightMap
      = _
  rw [mipFoldl_centerHeightMap]
  rfl

/-- C1: after `UpdateHeightMapSynced` on any rectangle, every center-height
cell inside the clamped expanded rectangle holds the arithmetic mean of the
four synced corner heights of its square. -/
theorem centerHeight_is_mean_after_UpdateHeightMapSynced (mapx mapy : Int) (L : ℕ)
    (heightmapSynced : Int → ℚ) (R : SRectangle) (s : DState) (x y : Int)
    (hmapx : 0 < mapx)
    (hx1 : (clampedCenterRect mapx mapy R).x1 ≤ x)
    (hx2 : x ≤ (clampedCenterRect mapx mapy R).x2)
    (hy1 : (clampedCenterRect mapx mapy R).z1 ≤ y)
    (hy2 : y ≤ (clampedCenterRect mapx mapy R).z2) :
    (UpdateHeightMapSynced mapx mapy L heightmapSynced R s).centerHeightMap (y * mapx + x) =
      (heightmapSynced (y * (mapx + 1) + x) + heightmapSynced (y * (mapx + 1) + x + 1) +
       heightmapSynced ((y + 1) * (mapx + 1) + x) +
       heightmapSynced ((y + 1) * (mapx + 1) + x + 1)) / 4 := by
  set r := clampedCenterRect mapx mapy R with hr
  have hx0 : 0 ≤ x := le_trans (le_max_right (R.x1 - 1) 0) hx1
  have hxm : x < mapx := lt_of_le_of_lt hx2 (by
    have : r.x2 ≤ mapx - 1 := min_le_right (R.x2 + 1) (mapx - 1)
    omega)
  rw [UpdateHeightMapSynced_centerHeightMap]
  rw [writeList_hit (centerWrites mapx heightmapSynced r) s.centerHeightMap (y * mapx + x)
    (centerHeightValue mapx heightmapSynced x y) ?hall ?hmem]
  · show (heightmapSynced ((y + 0) * (mapx + 1) + x + 0) +
      heightmapSynced ((y + 0) * (mapx + 1) + x + 1) +
      heightmapSynced ((y + 1) * (mapx + 1) + x + 0) +
      heightmapSynced ((y + 1) * (mapx + 1) + x + 1)) * (1 / 4) = _
    ring_nf
  case hall =>
    intro kv hkv hkey
    simp only [centerWrites, List.mem_map] at hkv
    obtain ⟨p, hp, rfl⟩ := hkv
    rw [mem_rectCells] at hp
    have hpx0 : 0 ≤ p.2 := le_trans (le_max_right (R.x1 - 1) 0) hp.2.2.1
    have hpxm : p.2 < mapx := lt_of_le_of_lt hp.2.2.2 (by
      have : r.x2 ≤ mapx - 1 := min_le_right (R.x2 + 1) (mapx - 1)
      omega)
    obtain ⟨hy', hx'⟩ := rowMajor_inj hmapx hx0 hxm hpx0 hpxm hkey
    simp only [hy', hx']
  case hmem =>
    refine ⟨(y * mapx + x, centerHeightValue mapx heightmapSynced x y), ?_, rfl⟩
    simp only [centerWrites, List.mem_map]
    exact ⟨(y, x), mem_rectCells.mpr ⟨hy1, hy2, hx1, hx2⟩, rfl⟩

/-- Concrete flat sample state used by the witnesses below. -/
noncomputable def sampleDState : DState :=
  { centerHeightMap := fun _ => 0,
    mipCenterHeightMaps := fun _ _ => 0,
    faceNormalsSynced := fun _ => ⟨0, 1, 0⟩,
    faceNormalsUnsynced := fun _ => ⟨0, 1, 0⟩,
    centerNormalsSynced := fun _ => ⟨0, 1, 0⟩,
    centerNormalsUnsynced := fun _ => ⟨0, 1, 0⟩,
    centerNormals2D := fun _ => ⟨0, 1, 0⟩,
    slopeMap := fun _ => 0 }

/-- Concrete all-zero corner height grid used by the witnesses below. -/
def sampleHeightMap : Int → ℚ := fun _ => 0

/-- Witness for C1 on a flat 2×2 map, whole-map rectangle, square (0,0). -/
theorem centerHeight_is_mean_witness :
    ((0 : Int) < 2 ∧
     (clampedCenterRect 2 2 (SRectangle.mk 0 0 2 2)).x1 ≤ 0 ∧
     (0 : Int) ≤ (clampedCenterRect 2 2 (SRectangle.mk 0 0 2 2)).x2 ∧
     (clampedCenterRect 2 2 (SRectangle.mk 0 0 2 2)).z1 ≤ 0 ∧
     (0 : Int) ≤ (clampedCenterRect 2 2 (SRectangle.mk 0 0 2 2)).z2) ∧
    (UpdateHeightMapSynced 2 2 2 sampleHeightMap (SRectangle.mk 0 0 2 2)
        sampleDState).centerHeightMap (0 * 2 + 0) =
      (sampleHeightMap (0 * (2 + 1) + 0) + sampleHeightMap (0 * (2 + 1) + 0 + 1) +
       sampleHeightMap ((0 + 1) * (2 + 1) + 0) +
       sampleHeightMap ((0 + 1) * (2 + 1) + 0 + 1)) / 4 :=
  ⟨⟨by decide, by decide, by decide, by decide, by decide⟩,
   centerHeight_is_mean_after_UpdateHeightMapSynced 2 2 2 sampleHeightMap
     (SRectangle.mk 0 0 2 2) sampleDState 0 0 (by decide) (by decide) (by decide)
     (by decide) (by decide)⟩

/-- C6: the XOR-differential serialization round-trips exactly — writing
the delta stream and reading it back against the same reference grid
reconstructs every word of the modified grid. -/
theorem SerializeMapChanges_roundTrip (numWords : ℕ)
    (refHeightMap modifiedHeightMap oldBuffer : ℕ → ℕ) (i : ℕ) (hi : i < numWords) :
    SerializeMapChangesRead refHeightMap
      (SerializeMapChangesWrite numWords refHeightMap modifiedHeightMap) oldBuffer i =
      modifiedHeightMap i := by
  unfold SerializeMapChangesRead SerializeMapChangesWrite
  have hlen : ((List.range numWords).map
      (fun i => Nat.xor (modifiedHeightMap i) (refHeightMap i))).length = numWords := by
    simp
  rw [if_pos (by rw [hlen]; exact hi)]
  rw [List.getD_eq_getElem?_getD, List.getElem?_map, List.getElem?_range hi]
  show Nat.xor (Nat.xor (modifiedHeightMap i) (refHeightMap i)) (refHeightMap i) =
    modifiedHeightMap i
  exact Nat.xor_cancel_right _ _

/-- Witness for C6 at a concrete reference/modified pair. -/
theorem SerializeMapChanges_roundTrip_witness :
    1 < 3 ∧
    SerializeMapChangesRead (fun i => i + 1)
      (SerializeMapChangesWrite 3 (fun i => i + 1) (fun i => 2 * i + 5)) (fun _ => 0) 1 =
      (fun i => 2 * i + 5) 1 :=
  ⟨by decide,
   SerializeMapChanges_roundTrip 3 (fun i => i + 1) (fun i => 2 * i + 5) (fun _ => 0) 1
     (by decide)⟩

/-- C8: each `UpdateDraw` call drains at most `MAX_UHM_RECTS_PER_FRAME`
rectangles, they are exactly a prefix of the pending queue, and every
rectangle beyond the cap remains queued (nothing is dropped). -/
theorem UpdateDraw_cap_and_no_drop (firstCall : Bool) (q : List SRectangle) :
    (UpdateDraw firstCall q).1.length ≤ MAX_UHM_RECTS_PER_FRAME ∧
    (UpdateDraw firstCall q).1 = q.take (min MAX_UHM_RECTS_PER_FRAME q.length) ∧
    (UpdateDraw firstCall q).2 = q.drop (min MAX_UHM_RECTS_PER_FRAME q.length) ∧
    (UpdateDraw firstCall q).1 ++ (UpdateDraw firstCall q).2 = q := by
  unfold UpdateDraw Process
  by_cases hq : q.isEmpty
  · rw [if_pos hq]
    have : q = [] := List.isEmpty_iff.mp hq
    subst this
    simp
  · rw [if_neg hq]
    refine ⟨?_, rfl, rfl, List.take_append_drop _ q⟩
    simp only [List.length_take]
    omega

/-- C9: initialization fails with `ConfigurationError` whenever the map
dimensions are not divisible by `2^(numHeightMipMaps - 1)`. -/
theorem Initialize_ConfigurationError (numHeightMipMaps : ℕ) (mapx mapy : Int)
    (heightmapSynced : Int → ℚ) (s : DState)
    (h : ¬(mapx % 2 ^ (numHeightMipMaps - 1) = 0 ∧ mapy % 2 ^ (numHeightMipMaps - 1) = 0)) :
    Initialize numHeightMipMaps mapx mapy heightmapSynced s =
      Except.error MapInitError.ConfigurationError := by
  unfold Initialize CheckMapMipDims
  rw [if_neg h]

/-- Witness for C9: a 6×4 map is not representable at 3 mip levels. -/
theorem Initialize_ConfigurationError_witness :
    ¬((6 : Int) % 2 ^ (3 - 1) = 0 ∧ (4 : Int) % 2 ^ (3 - 1) = 0) ∧
    Initialize 3 6 4 sampleHeightMap sampleDState =
      Except.error MapInitError.ConfigurationError :=
  ⟨by decide, Initialize_ConfigurationError 3 6 4 sampleHeightMap sampleDState (by decide)⟩

/-! ## BoundsTracker lemmas (C5) -/

theorem UpdateTempHeightBoundsSIMD_append (heightMapSynced : Int → ℚ) (a b c : Int)
    (hab : a ≤ b) (hbc : b ≤ c) (tb : float2) :
    UpdateTempHeightBoundsSIMD heightMapSynced b c
      (UpdateTempHeightBoundsSIMD heightMapSynced a b tb) =
      UpdateTempHeightBoundsSIMD heightMapSynced a c tb := by
  unfold UpdateTempHeightBoundsSIMD
  rw [← intRange_append a b c hab hbc, List.foldl_append]

theorem UpdateHeightBoundsRun_succ (mapx mapy PACING_PERIOD : Int)
    (heightMapSynced : Int → ℚ) (f : Int) (n : ℕ) (s : HeightBoundsState) :
    UpdateHeightBoundsRun mapx mapy PACING_PERIOD heightMapSynced f (n + 1) s =
      UpdateHeightBounds mapx mapy PACING_PERIOD heightMapSynced (f + n)
        (UpdateHeightBoundsRun mapx mapy PACING_PERIOD heightMapSynced f n s) := by
  unfold UpdateHeightBoundsRun
  rw [List.range_succ, List.foldl_append, List.foldl_cons, List.foldl_nil]

/-- Evaluation of a paced call on slice 0 that (re)starts a cycle. -/
theorem UpdateHeightBounds_chunk0_start (mapx mapy P : Int) (heightMapSynced : Int → ℚ)
    (f : Int) (s : HeightBoundsState) (hf : f % P = 0) (hu : s.hmUpdated = true) :
    UpdateHeightBounds mapx mapy P heightMapSynced f s =
      { tempHeightBounds :=
          UpdateTempHeightBoundsSIMD heightMapSynced 0
            ((mapx + 1) * (mapy + 1) / P) ⟨floatMax, floatLowest⟩,
        currHeightBounds :=
          if s.processingHeightBounds then s.tempHeightBounds else s.currHeightBounds,
        processingHeightBounds := true,
        hmUpdated := false } := by
  unfold UpdateHeightBounds
  simp only [hf, if_pos rfl, hu, reduceIte, Bool.true_eq_false]
  norm_num

/-- Evaluation of a paced call on slice 0 when the grid was not touched:
the previous cycle's bounds are committed and the cycle stops. -/
theorem UpdateHeightBounds_chunk0_commit (mapx mapy P : Int) (heightMapSynced : Int → ℚ)
    (f : Int) (s : HeightBoundsState) (hf : f % P = 0)
    (hp : s.processingHeightBounds = true) (hu : s.hmUpdated = false) :
    UpdateHeightBounds mapx mapy P heightMapSynced f s =
      { tempHeightBounds := s.tempHeightBounds,
        currHeightBounds := s.tempHeightBounds,
        processingHeightBounds := false,
        hmUpdated := false } := by
  unfold UpdateHeightBounds
  simp only [hf, if_pos rfl, hp, hu, reduceIte]

/-- Evaluation of a paced call on a running slice `0 < k < P`. -/
theorem UpdateHeightBounds_chunk_running (mapx mapy P : Int) (heightMapSynced : Int → ℚ)
    (f : Int) (k : ℕ) (s : HeightBoundsState) (hf : f % P = 0) (hk : 0 < k)
    (hkP : (k : Int) < P) (hp : s.processingHeightBounds = true) :
    UpdateHeightBounds mapx mapy P heightMapSynced (f + k) s =
      { s with tempHeightBounds :=
          (UpdateTempHeightBoundsSIMD heightMapSynced
            ((k : Int) * ((mapx + 1) * (mapy + 1)) / P)
            (((k : Int) + 1) * ((mapx + 1) * (mapy + 1)) / P) s.tempHeightBounds) } := by
  have hP : 0 < P := lt_of_le_of_lt (by positivity) hkP
  have hchunk : (f + (k : Int)) % P = (k : Int) := by
    obtain ⟨t, rfl⟩ : P ∣ f := Int.dvd_of_emod_eq_zero hf
    rw [add_comm, Int.add_mul_emod_self_left]
    exact Int.emod_eq_of_lt (by positivity) hkP
  simp only [UpdateHeightBounds, hchunk]
  simp only [if_neg (show ¬((k : Int) = 0) by omega)]
  simp only [if_neg (show ¬(s.processingHeightBounds = false) by simp [hp])]
  norm_num

/-- After the slice-0 restart and `k` further running slices, the
provisional bounds hold the fold of `[0, (k+1)*N/P)`. -/
theorem UpdateHeightBoundsRun_cycle (mapx mapy : Int) (P : ℕ) (heightMapSynced : Int → ℚ)
    (f : Int) (s : HeightBoundsState) (hf : f % (P : Int) = 0) (hu : s.hmUpdated = true)
    (hx : 0 ≤ mapx) (hy : 0 ≤ mapy) :
    ∀ k : ℕ, (k : Int) < (P : Int) →
      UpdateHeightBoundsRun mapx mapy (P : Int) heightMapSynced f (k + 1) s =
        { tempHeightBounds :=
            UpdateTempHeightBoundsSIMD heightMapSynced 0
              (((k : Int) + 1) * ((mapx + 1) * (mapy + 1)) / (P : Int))
              ⟨floatMax, floatLowest⟩,
          currHeightBounds :=
            if s.processingHeightBounds then s.tempHeightBounds else s.currHeightBounds,
          processingHeightBounds := true,
          hmUpdated := false } := by
  intro k
  induction k with
  | zero =>
      intro hkP
      rw [UpdateHeightBoundsRun_succ]
      show UpdateHeightBounds mapx mapy (P : Int) heightMapSynced (f + ((0 : ℕ) : Int))
        (UpdateHeightBoundsRun mapx mapy (P : Int) heightMapSynced f 0 s) = _
      have h0 : UpdateHeightBoundsRun mapx mapy (P : Int) heightMapSynced f 0 s = s := rfl
      rw [h0, Nat.cast_zero, add_zero]
      rw [UpdateHeightBounds_chunk0_start mapx mapy (P : Int) heightMapSynced f s hf hu]
      norm_num
  | succ k ih =>
      intro hkP
      have hP : (0 : Int) < (P : Int) := lt_of_le_of_lt (by positivity) hkP
      have hN : (0 : Int) ≤ (mapx + 1) * (mapy + 1) := by positivity
      rw [UpdateHeightBoundsRun_succ, ih (by omega)]
      rw [UpdateHeightBounds_chunk_running mapx mapy (P : Int) heightMapSynced f (k + 1) _
        hf (by omega) (by exact_mod_cast hkP) rfl]
      have hle1 : (0 : Int) ≤ ((k : Int) + 1) * ((mapx + 1) * (mapy + 1)) / (P : Int) :=
        Int.ediv_nonneg (by positivity) (le_of_lt hP)
      have hle2 : ((k : Int) + 1) * ((mapx + 1) * (mapy + 1)) / (P : Int) ≤
          (((k : Int) + 1) + 1) * ((mapx + 1) * (mapy + 1)) / (P : Int) :=
        Int.ediv_le_ediv hP (by nlinarith)
      push_cast
      rw [UpdateTempHeightBoundsSIMD_append heightMapSynced 0 _ _ hle1 hle2]

/-- C5: after a mutation, a full pacing cycle (slices `0 .. P-1`) followed
by the committing slice-0 call of the next cycle leaves in
`currHeightBounds` exactly the pair the full single-pass rescan
`UpdateHeightBounds()` computes over the whole synced grid. -/
theorem paced_cycle_commits_full_rescan_bounds (mapx mapy : Int) (P : ℕ)
    (heightMapSynced : Int → ℚ) (f : Int) (s : HeightBoundsState)
    (hP : 0 < P) (hf : f % (P : Int) = 0) (hu : s.hmUpdated = true)
    (hx : 0 ≤ mapx) (hy : 0 ≤ mapy) :
    (UpdateHeightBoundsRun mapx mapy (P : Int) heightMapSynced f (P + 1) s).currHeightBounds =
      (UpdateHeightBoundsFull mapx mapy heightMapSynced s).currHeightBounds := by
  have hPZ : (0 : Int) < (P : Int) := by exact_mod_cast hP
  obtain ⟨Q, hQ⟩ : ∃ Q : ℕ, P = Q + 1 := ⟨P - 1, by omega⟩
  subst hQ
  rw [UpdateHeightBoundsRun_succ]
  rw [UpdateHeightBoundsRun_cycle mapx mapy (Q + 1) heightMapSynced f s hf hu hx hy Q
    (by push_cast; omega)]
  have hfP : (f + ((Q + 1 : ℕ) : Int)) % ((Q + 1 : ℕ) : Int) = 0 := by
    obtain ⟨t, rfl⟩ : ((Q + 1 : ℕ) : Int) ∣ f := Int.dvd_of_emod_eq_zero hf
    have : ((Q + 1 : ℕ) : Int) * t + ((Q + 1 : ℕ) : Int) =
        ((Q + 1 : ℕ) : Int) * (t + 1) := by ring
    rw [this]
    exact Int.mul_emod_right _ _
  rw [UpdateHeightBounds_chunk0_commit mapx mapy ((Q + 1 : ℕ) : Int) heightMapSynced
    (f + ((Q + 1 : ℕ) : Int)) _ hfP rfl rfl]
  have eN : ((Q : Int) + 1) * ((mapx + 1) * (mapy + 1)) / ((Q + 1 : ℕ) : Int) =
      (mapx + 1) * (mapy + 1) := by
    have : ((Q : Int) + 1) = ((Q + 1 : ℕ) : Int) := by push_cast; ring
    rw [this]
    exact Int.mul_ediv_cancel_left _ (by positivity)
  rw [eN]
  unfold UpdateHeightBoundsFull
  rfl

/-- Witness for C5 on a 1×1 map with pacing period 2. -/
theorem paced_cycle_commits_full_rescan_bounds_witness :
    (0 < 2 ∧ (0 : Int) % ((2 : ℕ) : Int) = 0 ∧
     (HeightBoundsState.mk ⟨0, 0⟩ ⟨0, 0⟩ false true).hmUpdated = true ∧
     (0 : Int) ≤ 1 ∧ (0 : Int) ≤ 1) ∧
    (UpdateHeightBoundsRun 1 1 ((2 : ℕ) : Int) (fun _ => 5) 0 (2 + 1)
        (HeightBoundsState.mk ⟨0, 0⟩ ⟨0, 0⟩ false true)).currHeightBounds =
      (UpdateHeightBoundsFull 1 1 (fun _ => 5)
        (HeightBoundsState.mk ⟨0, 0⟩ ⟨0, 0⟩ false true)).currHeightBounds :=
  ⟨⟨by decide, by decide, by decide, by decide, by decide⟩,
   paced_cycle_commits_full_rescan_bounds 1 1 2 (fun _ => 5) 0
     (HeightBoundsState.mk ⟨0, 0⟩ ⟨0, 0⟩ false true) (by decide) (by decide) (by decide)
     (by decide) (by decide)⟩

/-! ## Mip pyramid characterization (C2) -/

theorem shiftRight_eq (a : Int) (i : ℕ) : a >>> i = a / 2 ^ i := by
  rw [Int.shiftRight_eq_div_pow]
  norm_num

theorem shift_pow_mul (i c : ℕ) (a : Int) : ((2 : ℤ) ^ (i + c) * a) >>> i = 2 ^ c * a := by
  rw [shiftRight_eq, pow_add, mul_assoc, Int.mul_ediv_cancel_left _ (by positivity)]

theorem ediv_pred_of_dvd (m : Int) (i : ℕ) (hd : (2 : ℤ) ^ i ∣ m) :
    (m - 1) / 2 ^ i = m / 2 ^ i - 1 := by
  obtain ⟨t, rfl⟩ := hd
  rw [Int.mul_ediv_cancel_left _ (by positivity : (0 : ℤ) < 2 ^ i).ne']
  have h2 : (2 : ℤ) ^ i * t - 1 = (2 ^ i - 1) + (t - 1) * 2 ^ i := by ring
  have hpow : (0 : ℤ) < 2 ^ i := by positivity
  rw [h2, Int.add_mul_ediv_right _ _ hpow.ne',
    Int.ediv_eq_zero_of_lt (by omega) (by omega)]
  ring

theorem mipFoldl_range_succ (mapx : Int) (rect : SRectangle) (k : ℕ) (s : DState) :
    (List.range (k + 1)).foldl (mipPassStep mapx rect) s =
      mipPassStep mapx rect ((List.range k).foldl (mipPassStep mapx rect) s) k := by
  rw [List.range_succ, List.foldl_append, List.foldl_cons, List.foldl_nil]

/-- Passes `0 .. k-1` never touch mip buffer indices `j ≥ k`. -/
theorem mipFoldl_untouched (mapx : Int) (rect : SRectangle) (s : DState) :
    ∀ k j : ℕ, k ≤ j →
      ((List.range k).foldl (mipPassStep mapx rect) s).mipCenterHeightMaps j =
        s.mipCenterHeightMaps j := by
  intro k
  induction k with
  | zero => intro j _; rfl
  | succ k ih =>
      intro j hj
      rw [mipFoldl_range_succ, mipPassStep_get, if_neg (by omega), ih j (by omega)]

/-- Once pass `j` has run, later passes leave mip buffer index `j` alone. -/
theorem mipFoldl_stable (mapx : Int) (rect : SRectangle) (s : DState) (k : ℕ) :
    ∀ k' j : ℕ, j < k → k ≤ k' →
      ((List.range k').foldl (mipPassStep mapx rect) s).mipCenterHeightMaps j =
        ((List.range k).foldl (mipPassStep mapx rect) s).mipCenterHeightMaps j := by
  intro k'
  induction k' with
  | zero => intro j hj hk; interval_cases k; rfl
  | succ k' ih =>
      intro j hj hk
      rcases Nat.lt_or_ge k (k' + 1) with hlt | hge
      · rw [mipFoldl_range_succ, mipPassStep_get, if_neg (by omega), ih j hj (by omega)]
      · have : k = k' + 1 := by omega
        rw [this]

/-- Characterization of the finished mip fold: for every executed pass
`j`, the final contents of mip buffer `j` (level `j + 1`) are the pass's
stores — computed against the *final* level `j` — over the initial
buffer. -/
theorem mipFoldl_level (mapx : Int) (rect : SRectangle) (s : DState) (k j : ℕ)
    (hj : j < k) :
    ((List.range k).foldl (mipPassStep mapx rect) s).mipCenterHeightMaps j =
      writeList
        (mipPassWrites mapx j rect
          (mipPointerHeightMaps ((List.range k).foldl (mipPassStep mapx rect) s) j))
        (s.mipCenterHeightMaps j) := by
  have htop : mipPointerHeightMaps ((List.range k).foldl (mipPassStep mapx rect) s) j =
      mipPointerHeightMaps ((List.range j).foldl (mipPassStep mapx rect) s) j := by
    cases j with
    | zero =>
        show ((List.range k).foldl (mipPassStep mapx rect) s).centerHeightMap =
          ((List.range 0).foldl (mipPassStep mapx rect) s).centerHeightMap
        rw [mipFoldl_centerHeightMap, mipFoldl_centerHeightMap]
    | succ j' =>
        show ((List.range k).foldl (mipPassStep mapx rect) s).mipCenterHeightMaps j' =
          ((List.range (j' + 1)).foldl (mipPassStep mapx rect) s).mipCenterHeightMaps j'
        exact mipFoldl_stable mapx rect s (j' + 1) k j' (by omega) (by omega)
  rw [htop]
  have hstable : ((List.range k).foldl (mipPassStep mapx rect) s).mipCenterHeightMaps j =
      ((List.range (j + 1)).foldl (mipPassStep mapx rect) s).mipCenterHeightMaps j :=
    mipFoldl_stable mapx rect s (j + 1) k j (by omega) (by omega)
  rw [hstable, mipFoldl_range_succ, mipPassStep_get, if_pos rfl,
    mipFoldl_untouched mapx rect s j j (le_refl j)]

theorem UHMS_mipCenterHeightMaps (mapx mapy : Int) (L : ℕ) (heightmapSynced : Int → ℚ)
    (R : SRectangle) (s : DState) :
    (UpdateHeightMapSynced mapx mapy L heightmapSynced R s).mipCenterHeightMaps =
      (UpdateMipHeightmaps mapx L (clampedCenterRect mapx mapy R)
        (UpdateCenterHeightmap mapx heightmapSynced (clampedCenterRect mapx mapy R) s)
        ).mipCenterHeightMaps := rfl

theorem UHMS_mipPointer (mapx mapy : Int) (L : ℕ) (heightmapSynced : Int → ℚ)
    (R : SRectangle) (s : DState) :
    mipPointerHeightMaps (UpdateHeightMapSynced mapx mapy L heightmapSynced R s) =
      mipPointerHeightMaps
        (UpdateMipHeightmaps mapx L (clampedCenterRect mapx mapy R)
          (UpdateCenterHeightmap mapx heightmapSynced (clampedCenterRect mapx mapy R) s)) := by
  funext i
  cases i with
  | zero => rfl
  | succ i => rfl

/-- C2 (amended): after the pipeline, every mip cell whose 2×2 block the
pass actually iterates (`(y, x)` even-strided in `[sx, ex) × [sy, ey)`)
equals the exact average of its four source cells of the final lower
level. -/
theorem mip_invariant_on_recomputed_blocks (mapx mapy : Int) (L : ℕ)
    (heightmapSynced : Int → ℚ) (R : SRectangle) (s : DState) (a b : Int) (i : ℕ)
    (x y : Int)
    (hma : mapx = 2 ^ (L - 1) * a) (hmb : mapy = 2 ^ (L - 1) * b)
    (ha : 0 < a) (hb : 0 < b) (hi : i < L - 1)
    (hmem : (y, x) ∈ rectCells2
      (((clampedCenterRect mapx mapy R).x1 >>> i) -
        ((clampedCenterRect mapx mapy R).x1 >>> i) % 2)
      (((clampedCenterRect mapx mapy R).z1 >>> i) -
        ((clampedCenterRect mapx mapy R).z1 >>> i) % 2)
      ((clampedCenterRect mapx mapy R).x2 >>> i)
      ((clampedCenterRect mapx mapy R).z2 >>> i)) :
    (UpdateHeightMapSynced mapx mapy L heightmapSynced R s).mipCenterHeightMaps i
        ((x / 2) + (y / 2) * (mapx >>> i) / 2) =
      (mipPointerHeightMaps (UpdateHeightMapSynced mapx mapy L heightmapSynced R s) i
          (x + y * (mapx >>> i)) +
       mipPointerHeightMaps (UpdateHeightMapSynced mapx mapy L heightmapSynced R s) i
          (x + (y + 1) * (mapx >>> i)) +
       mipPointerHeightMaps (UpdateHeightMapSynced mapx mapy L heightmapSynced R s) i
          ((x + 1) + y * (mapx >>> i)) +
       mipPointerHeightMaps (UpdateHeightMapSynced mapx mapy L heightmapSynced R s) i
          ((x + 1) + (y + 1) * (mapx >>> i))) / 4 := by
  have hL1 : 1 ≤ L - 1 := by omega
  have hsplit : L - 1 = i + (L - 1 - i) := by omega
  have hhmapx : mapx >>> i = 2 ^ (L - 1 - i) * a := by
    rw [hma, hsplit, shift_pow_mul]
    have he : i + (L - 1 - i) - i = L - 1 - i := by omega
    rw [he]
  have hsplit2 : L - 1 - i = (L - 2 - i) + 1 := by omega
  have hhm2 : mapx >>> i = 2 * (2 ^ (L - 2 - i) * a) := by
    rw [hhmapx, hsplit2]
    ring
  set H : Int := 2 ^ (L - 2 - i) * a with hH
  have hHpos : 0 < H := by positivity
  have hdvd : (2 : ℤ) ^ i ∣ mapx := by
    rw [hma, hsplit]
    exact ⟨2 ^ (L - 1 - i) * a, by rw [pow_add]; ring⟩
  have hposx : 0 < mapx := by rw [hma]; positivity
  set rect := clampedCenterRect mapx mapy R with hrect
  have hx1nn : 0 ≤ rect.x1 := le_max_right (R.x1 - 1) 0
  have hx2le : rect.x2 ≤ mapx - 1 := min_le_right (R.x2 + 1) (mapx - 1)
  have hsx : 0 ≤ (rect.x1 >>> i) - (rect.x1 >>> i) % 2 ∧
      2 ∣ ((rect.x1 >>> i) - (rect.x1 >>> i) % 2) := by
    have : 0 ≤ rect.x1 >>> i := by
      rw [shiftRight_eq]
      exact Int.ediv_nonneg hx1nn (by positivity)
    omega
  have hex : rect.x2 >>> i ≤ mapx >>> i - 1 := by
    rw [shiftRight_eq, shiftRight_eq]
    calc rect.x2 / 2 ^ i ≤ (mapx - 1) / 2 ^ i := Int.ediv_le_ediv (by positivity) hx2le
    _ = mapx / 2 ^ i - 1 := ediv_pred_of_dvd mapx i hdvd
  -- facts about the chosen block base
  rw [mem_rectCells2] at hmem
  obtain ⟨⟨⟨ky, hky⟩, hyey⟩, ⟨kx, hkx⟩, hxex⟩ := hmem
  have hsy : 2 ∣ ((rect.z1 >>> i) - (rect.z1 >>> i) % 2) := by omega
  have hyeven : 2 ∣ y := by omega
  have hxeven : 2 ∣ x := by omega
  have hx0 : 0 ≤ x := by omega
  have hxlt : x < mapx >>> i := by omega
  -- reduce the pipeline to the mip fold characterization
  rw [UHMS_mipCenterHeightMaps, UHMS_mipPointer, UpdateMipHeightmaps_eq_foldl]
  rw [mipFoldl_level mapx rect
    (UpdateCenterHeightmap mapx heightmapSynced rect s) (L - 1) i hi]
  have hbase : (UpdateCenterHeightmap mapx heightmapSynced rect s).mipCenterHeightMaps i =
      s.mipCenterHeightMaps i := rfl
  set T := (List.range (L - 1)).foldl (mipPassStep mapx rect)
    (UpdateCenterHeightmap mapx heightmapSynced rect s) with hT
  set top := mipPointerHeightMaps T i with htop
  have hmulH : ∀ c : Int, c * (mapx >>> i) / 2 = c * H := by
    intro c
    rw [hhm2, Int.mul_ediv_assoc c ⟨H, by ring⟩, Int.mul_ediv_cancel_left H two_ne_zero]
  rw [writeList_hit (mipPassWrites mapx i rect top) _ ((x / 2) + (y / 2) * (mapx >>> i) / 2)
    ((top (x + y * (mapx >>> i)) + top (x + (y + 1) * (mapx >>> i)) +
      top ((x + 1) + y * (mapx >>> i)) + top ((x + 1) + (y + 1) * (mapx >>> i))) * (1 / 4))
    ?hall ?hmem]
  · ring
  case hall =>
    intro kv hkv hkey
    simp only [mipPassWrites, List.mem_map] at hkv
    obtain ⟨p, hp, rfl⟩ := hkv
    rw [mem_rectCells2] at hp
    obtain ⟨⟨⟨ky', hky'⟩, hyey'⟩, ⟨kx', hkx'⟩, hxex'⟩ := hp
    have hyeven' : 2 ∣ p.1 := by omega
    have hxeven' : 2 ∣ p.2 := by omega
    have hx0' : 0 ≤ p.2 := by omega
    have hxlt' : p.2 < mapx >>> i := by omega
    simp only [hmulH] at hkey ⊢
    have hcol : 0 ≤ x / 2 ∧ x / 2 < H ∧ 0 ≤ p.2 / 2 ∧ p.2 / 2 < H := by
      refine ⟨by omega, ?_, by omega, ?_⟩
      · rw [hhm2] at hxlt; omega
      · rw [hhm2] at hxlt'; omega
    have hinj := rowMajor_inj hHpos hcol.1 hcol.2.1 hcol.2.2.1 hcol.2.2.2
      (by rw [add_comm (x / 2), add_comm (p.2 / 2)] at hkey; exact hkey)
    have hyy : p.1 = y := by omega
    have hxx : p.2 = x := by omega
    rw [hyy, hxx]
  case hmem =>
    refine ⟨((x / 2) + (y / 2) * (mapx >>> i) / 2,
      (top (x + y * (mapx >>> i)) + top (x + (y + 1) * (mapx >>> i)) +
       top ((x + 1) + y * (mapx >>> i)) + top ((x + 1) + (y + 1) * (mapx >>> i))) * (1 / 4)),
      ?_, rfl⟩
    simp only [mipPassWrites, List.mem_map]
    refine ⟨(y, x), ?_, rfl⟩
    rw [mem_rectCells2]
    exact ⟨⟨⟨ky, hky⟩, hyey⟩, ⟨kx, hkx⟩, hxex⟩

/-- Witness for the amended C2 on an 8×8 map, rectangle `{4,4,4,4}`,
pass 0, block base (2,2). -/
theorem mip_invariant_on_recomputed_blocks_witness :
    ((8 : Int) = 2 ^ (3 - 1) * 2 ∧ (8 : Int) = 2 ^ (3 - 1) * 2 ∧ (0 : Int) < 2 ∧ 0 < 3 - 1 ∧
     ((2 : Int), (2 : Int)) ∈ rectCells2
       (((clampedCenterRect 8 8 (SRectangle.mk 4 4 4 4)).x1 >>> 0) -
         ((clampedCenterRect 8 8 (SRectangle.mk 4 4 4 4)).x1 >>> 0) % 2)
       (((clampedCenterRect 8 8 (SRectangle.mk 4 4 4 4)).z1 >>> 0) -
         ((clampedCenterRect 8 8 (SRectangle.mk 4 4 4 4)).z1 >>> 0) % 2)
       ((clampedCenterRect 8 8 (SRectangle.mk 4 4 4 4)).x2 >>> 0)
       ((clampedCenterRect 8 8 (SRectangle.mk 4 4 4 4)).z2 >>> 0)) ∧
    (UpdateHeightMapSynced 8 8 3 sampleHeightMap (SRectangle.mk 4 4 4 4)
        sampleDState).mipCenterHeightMaps 0 ((2 / 2) + (2 / 2) * ((8 : Int) >>> 0) / 2) =
      (mipPointerHeightMaps (UpdateHeightMapSynced 8 8 3 sampleHeightMap
          (SRectangle.mk 4 4 4 4) sampleDState) 0 (2 + 2 * ((8 : Int) >>> 0)) +
       mipPointerHeightMaps (UpdateHeightMapSynced 8 8 3 sampleHeightMap
          (SRectangle.mk 4 4 4 4) sampleDState) 0 (2 + (2 + 1) * ((8 : Int) >>> 0)) +
       mipPointerHeightMaps (UpdateHeightMapSynced 8 8 3 sampleHeightMap
          (SRectangle.mk 4 4 4 4) sampleDState) 0 ((2 + 1) + 2 * ((8 : Int) >>> 0)) +
       mipPointerHeightMaps (UpdateHeightMapSynced 8 8 3 sampleHeightMap
          (SRectangle.mk 4 4 4 4) sampleDState) 0 ((2 + 1) + (2 + 1) * ((8 : Int) >>> 0))) / 4 :=
  ⟨⟨by decide, by decide, by decide, by decide, by decide⟩,
   mip_invariant_on_recomputed_blocks 8 8 3 sampleHeightMap (SRectangle.mk 4 4 4 4)
     sampleDState 2 2 0 2 2 (by decide) (by decide) (by decide) (by decide) (by decide)
     (by decide)⟩

/-- Corner grid after an in-match mutation raising corner (0,0) to 16
(all other corners flat at 0). -/
def c2MutatedHeightMap : Int → ℚ := fun idx => if idx = 0 then 16 else 0

/-- State after the initial whole-map pipeline run on a flat 4×4 map
followed by a pipeline run for the one-corner mutation rectangle
`{0,0,0,0}` (3 mip levels). -/
noncomputable def c2State : DState :=
  UpdateHeightMapSynced 4 4 3 c2MutatedHeightMap (SRectangle.mk 0 0 0 0)
    (UpdateHeightMapSynced 4 4 3 sampleHeightMap (SRectangle.mk 0 0 4 4) sampleDState)

/-- Counterexample to C2 as stated: after the `{0,0,0,0}` update on the
4×4 map, mip level 2 cell (0,0) — whose source data at level 1 includes
the updated cell (0,0) — still holds its stale value 0 instead of the
average 1/4 of its four level-1 source cells, because pass 1 iterates
`x` from `sx = 0` only while `x < ex = rect.x2 >> 1 = 0`. -/
theorem mip_invariant_counterexample :
    c2State.mipCenterHeightMaps 1 0 ≠
      (mipPointerHeightMaps c2State 1 0 + mipPointerHeightMaps c2State 1 1 +
       mipPointerHeightMaps c2State 1 2 + mipPointerHeightMaps c2State 1 3) / 4 := by
  with_unfolding_all decide

/-! ## Slope map lemmas (C3, C4) -/

/-- Whenever some store hits index `j`, the final contents at `j` are one
of the stored values. -/
theorem writeList_hit_mem {β : Type} (ws : List (Int × β)) (f : Int → β) (j : Int)
    (hmem : ∃ kv ∈ ws, kv.1 = j) : ∃ kv ∈ ws, kv.1 = j ∧ writeList ws f j = kv.2 := by
  induction ws generalizing f with
  | nil => exact absurd hmem (by simp)
  | cons kv t ih =>
      by_cases hmem' : ∃ kv' ∈ t, kv'.1 = j
      · obtain ⟨kv', h1, h2, h3⟩ := ih (fupd f kv.1 kv.2) hmem'
        exact ⟨kv', List.mem_cons_of_mem kv h1, h2, h3⟩
      · obtain ⟨kv', hkv', hk'⟩ := hmem
        have hhead : kv' = kv := by
          rcases List.mem_cons.mp hkv' with he | ht
          · exact he
          · exact absurd ⟨kv', ht, hk'⟩ hmem'
        subst hhead
        refine ⟨kv', List.mem_cons_self kv' t, hk', ?_⟩
        rw [writeList_cons kv'.1 kv'.2 t f,
          writeList_notin t (fupd f kv'.1 kv'.2) j
            (fun kv'' hkv'' hke => hmem' ⟨kv'', hkv'', hke⟩),
          ← hk', fupd_self]

/-- The new buffer agrees with the old one at `j` unless one of the stored
values (all satisfying `Q`) landed there. -/
theorem writeList_pred_or {β : Type} (Q : β → Prop) (ws : List (Int × β)) (f : Int → β)
    (hw : ∀ kv ∈ ws, Q kv.2) (j : Int) :
    writeList ws f j = f j ∨ Q (writeList ws f j) := by
  by_cases h : ∀ kv ∈ ws, kv.1 ≠ j
  · exact Or.inl (writeList_notin ws f j h)
  · push_neg at h
    obtain ⟨kv, hkv, hk⟩ := h
    obtain ⟨kv', h1, _, h3⟩ := writeList_hit_mem ws f j ⟨kv, hkv, hk⟩
    exact Or.inr (h3 ▸ hw kv' h1)

/-- The `y` component of a face normal produced by `UpdateFaceNormals`
(vertical component `SQUARE_SIZE` before normalization) lies in `(0, 1]`. -/
theorem normalize_y_bounds (a b : ℝ) :
    0 < (float3.Normalize ⟨a, SQUARE_SIZE, b⟩).y ∧
      (float3.Normalize ⟨a, SQUARE_SIZE, b⟩).y ≤ 1 := by
  have hsq : float3.SqLength ⟨a, SQUARE_SIZE, b⟩ = a * a + 64 + b * b := by
    show a * a + SQUARE_SIZE * SQUARE_SIZE + b * b = _
    norm_num [SQUARE_SIZE]
  have h64 : (8 : ℝ) = Real.sqrt 64 := by
    rw [show (64 : ℝ) = 8 ^ 2 by norm_num, Real.sqrt_sq (by norm_num)]
  have hle : Real.sqrt 64 ≤ Real.sqrt (a * a + 64 + b * b) :=
    Real.sqrt_le_sqrt (by nlinarith)
  have hpos : 0 < Real.sqrt (a * a + 64 + b * b) := by
    rw [← h64] at hle
    linarith
  constructor
  · show 0 < SQUARE_SIZE / Real.sqrt (float3.SqLength ⟨a, SQUARE_SIZE, b⟩)
    rw [hsq]
    exact div_pos (by norm_num [SQUARE_SIZE]) hpos
  · show SQUARE_SIZE / Real.sqrt (float3.SqLength ⟨a, SQUARE_SIZE, b⟩) ≤ 1
    rw [hsq]
    rw [div_le_one hpos]
    show (8 : ℝ) ≤ _
    rw [h64]
    exact hle

theorem fnTL_y_bounds (mapx : Int) (heightmapSynced : Int → ℚ) (x y : Int) :
    0 < (fnTL mapx heightmapSynced x y).y ∧ (fnTL mapx heightmapSynced x y).y ≤ 1 :=
  normalize_y_bounds _ _

theorem fnBR_y_bounds (mapx : Int) (heightmapSynced : Int → ℚ) (x y : Int) :
    0 < (fnBR mapx heightmapSynced x y).y ∧ (fnBR mapx heightmapSynced x y).y ≤ 1 :=
  normalize_y_bounds _ _

theorem faceWrites_y_bounds (mapx mapy : Int) (heightmapSynced : Int → ℚ)
    (rect : SRectangle) :
    ∀ kv ∈ faceWrites mapx mapy heightmapSynced rect, 0 < kv.2.y ∧ kv.2.y ≤ 1 := by
  intro kv hkv
  simp only [faceWrites, List.mem_flatMap, List.mem_cons, List.not_mem_nil, or_false] at hkv
  obtain ⟨p, _, (rfl | rfl)⟩ := hkv
  · exact fnTL_y_bounds mapx heightmapSynced p.2 p.1
  · exact fnBR_y_bounds mapx heightmapSynced p.2 p.1

/-- Pure arithmetic core of C3: with all eight inputs in `(0, 1]`, the
blend `1 - mix(maxslope, avgslope, maxslope/avgslope)` lies in `[0, 1]`. -/
theorem slopeBlend_bounds (y0 y1 y2 y3 y4 y5 y6 y7 : ℝ)
    (h0 : 0 < y0) (h0' : y0 ≤ 1) (h1 : 0 < y1) (h1' : y1 ≤ 1)
    (h2 : 0 < y2) (h2' : y2 ≤ 1) (h3 : 0 < y3) (h3' : y3 ≤ 1)
    (h4 : 0 < y4) (h4' : y4 ≤ 1) (h5 : 0 < y5) (h5' : y5 ≤ 1)
    (h6 : 0 < y6) (h6' : y6 ≤ 1) (h7 : 0 < y7) (h7' : y7 ≤ 1) :
    0 ≤ slopeBlend y0 y1 y2 y3 y4 y5 y6 y7 ∧ slopeBlend y0 y1 y2 y3 y4 y5 y6 y7 ≤ 1 := by
  unfold slopeBlend mix
  set m := min (min (min (min (min (min (min y0 y1) y2) y3) y4) y5) y6) y7 with hmdef
  set avgslope := (y0 + y1 + y2 + y3 + y4 + y5 + y6 + y7) * (1 / 8) with havg
  have hm_pos : 0 < m :=
    lt_min (lt_min (lt_min (lt_min (lt_min (lt_min (lt_min h0 h1) h2) h3) h4) h5) h6) h7
  have hm0 : m ≤ y0 := by simp only [hmdef, min_le_iff, le_refl, true_or, or_true]
  have hm1 : m ≤ y1 := by simp only [hmdef, min_le_iff, le_refl, true_or, or_true]
  have hm2 : m ≤ y2 := by simp only [hmdef, min_le_iff, le_refl, true_or, or_true]
  have hm3 : m ≤ y3 := by simp only [hmdef, min_le_iff, le_refl, true_or, or_true]
  have hm4 : m ≤ y4 := by simp only [hmdef, min_le_iff, le_refl, true_or, or_true]
  have hm5 : m ≤ y5 := by simp only [hmdef, min_le_iff, le_refl, true_or, or_true]
  have hm6 : m ≤ y6 := by simp only [hmdef, min_le_iff, le_refl, true_or, or_true]
  have hm7 : m ≤ y7 := by simp only [hmdef, min_le_iff, le_refl, true_or, or_true]
  have havg_pos : 0 < avgslope := by rw [havg]; linarith
  have havg_le : avgslope ≤ 1 := by rw [havg]; linarith
  have hm_le_avg : m ≤ avgslope := by rw [havg]; linarith
  have ht0 : 0 ≤ m / avgslope := div_nonneg (le_of_lt hm_pos) (le_of_lt havg_pos)
  have ht1 : m / avgslope ≤ 1 := (div_le_one havg_pos).mpr hm_le_avg
  have hprod0 : 0 ≤ (avgslope - m) * (m / avgslope) :=
    mul_nonneg (by linarith) ht0
  have hprod1 : (avgslope - m) * (m / avgslope) ≤ (avgslope - m) * 1 :=
    mul_le_mul_of_nonneg_left ht1 (by linarith)
  constructor
  · linarith
  · linarith

/-- Core estimate for C3: if every face normal the cell reads has `y`
component in `(0, 1]`, the stored slope value lies in `[0, 1]`. -/
theorem slopeValue_bounds (mapx : Int) (faceNormals : Int → float3) (x y : Int)
    (hF : ∀ k, 0 < (faceNormals k).y ∧ (faceNormals k).y ≤ 1) :
    0 ≤ slopeValue mapx faceNormals x y ∧ slopeValue mapx faceNormals x y ≤ 1 := by
  unfold slopeValue
  exact slopeBlend_bounds _ _ _ _ _ _ _ _
    (hF _).1 (hF _).2 (hF _).1 (hF _).2 (hF _).1 (hF _).2 (hF _).1 (hF _).2
    (hF _).1 (hF _).2 (hF _).1 (hF _).2 (hF _).1 (hF _).2 (hF _).1 (hF _).2

/-- The pipeline's slope stage: its stores read the face normals just
rewritten by the face stage, over the pre-pipeline slope map. -/
theorem UHMS_slopeMap (mapx mapy : Int) (L : ℕ) (heightmapSynced : Int → ℚ)
    (R : SRectangle) (s : DState) :
    (UpdateHeightMapSynced mapx mapy L heightmapSynced R s).slopeMap =
      writeList
        (slopeWrites mapx mapy
          (writeList (faceWrites mapx mapy heightmapSynced (clampedCenterRect mapx mapy R))
            s.faceNormalsSynced)
          (clampedCenterRect mapx mapy R))
        s.slopeMap := by
  show writeList
      (slopeWrites mapx mapy
        (writeList (faceWrites mapx mapy heightmapSynced (clampedCenterRect mapx mapy R))
          ((List.range (L - 1)).foldl
            (mipPassStep mapx (clampedCenterRect mapx mapy R))
            (UpdateCenterHeightmap mapx heightmapSynced (clampedCenterRect mapx mapy R) s)
            ).faceNormalsSynced)
        (clampedCenterRect mapx mapy R))
      (((List.range (L - 1)).foldl
        (mipPassStep mapx (clampedCenterRect mapx mapy R))
        (UpdateCenterHeightmap mapx heightmapSynced (clampedCenterRect mapx mapy R) s)
        ).slopeMap) = _
  rw [mipFoldl_faceNormalsSynced, mipFoldl_slopeMap]
  rfl

/-- C3: for every synced corner grid and every rectangle, every slope-map
cell `UpdateSlopemap` writes during the pipeline ends up in `[0, 1]`
(cells no store touches keep their previous value).  The hypothesis is the
face-normal invariant — every stored face normal is normalized with
positive vertical component — which `UpdateFaceNormals` itself
(re)establishes for every cell it writes. -/
theorem slope_values_in_unit_interval (mapx mapy : Int) (L : ℕ)
    (heightmapSynced : Int → ℚ) (R : SRectangle) (s : DState) (j : Int)
    (hinv : ∀ k, 0 < (s.faceNormalsSynced k).y ∧ (s.faceNormalsSynced k).y ≤ 1) :
    (UpdateHeightMapSynced mapx mapy L heightmapSynced R s).slopeMap j = s.slopeMap j ∨
      (0 ≤ (UpdateHeightMapSynced mapx mapy L heightmapSynced R s).slopeMap j ∧
       (UpdateHeightMapSynced mapx mapy L heightmapSynced R s).slopeMap j ≤ 1) := by
  rw [UHMS_slopeMap]
  set rect := clampedCenterRect mapx mapy R with hrect
  set F := writeList (faceWrites mapx mapy heightmapSynced rect) s.faceNormalsSynced with hF
  have hFinv : ∀ k, 0 < (F k).y ∧ (F k).y ≤ 1 := by
    rw [hF]
    exact writeList_pred (fun v => 0 < v.y ∧ v.y ≤ 1)
      (faceWrites mapx mapy heightmapSynced rect) s.faceNormalsSynced hinv
      (faceWrites_y_bounds mapx mapy heightmapSynced rect)
  refine writeList_pred_or (fun v => 0 ≤ v ∧ v ≤ 1)
    (slopeWrites mapx mapy F rect) s.slopeMap ?_ j
  intro kv hkv
  simp only [slopeWrites, List.mem_map] at hkv
  obtain ⟨p, _, rfl⟩ := hkv
  exact slopeValue_bounds mapx F p.2 p.1 hFinv

/-- Witness for C3 on a flat 2×2 map, whole-map rectangle, slope cell 0. -/
theorem slope_values_in_unit_interval_witness :
    (∀ k, 0 < (sampleDState.faceNormalsSynced k).y ∧
      (sampleDState.faceNormalsSynced k).y ≤ 1) ∧
    ((UpdateHeightMapSynced 2 2 2 sampleHeightMap (SRectangle.mk 0 0 2 2)
        sampleDState).slopeMap 0 = sampleDState.slopeMap 0 ∨
      (0 ≤ (UpdateHeightMapSynced 2 2 2 sampleHeightMap (SRectangle.mk 0 0 2 2)
          sampleDState).slopeMap 0 ∧
       (UpdateHeightMapSynced 2 2 2 sampleHeightMap (SRectangle.mk 0 0 2 2)
          sampleDState).slopeMap 0 ≤ 1)) :=
  ⟨fun k => ⟨by norm_num [sampleDState], by norm_num [sampleDState]⟩,
   slope_values_in_unit_interval 2 2 2 sampleHeightMap (SRectangle.mk 0 0 2 2)
     sampleDState 0
     (fun k => ⟨by norm_num [sampleDState], by norm_num [sampleDState]⟩)⟩

/-! ## Flat-terrain slope orientation (C4) -/

theorem Normalize_flat : float3.Normalize ⟨0, SQUARE_SIZE, 0⟩ = ⟨0, 1, 0⟩ := by
  unfold float3.Normalize float3.SqLength
  have h : Real.sqrt ((0 : ℝ) * 0 + SQUARE_SIZE * SQUARE_SIZE + 0 * 0) = 8 := by
    rw [show (0 : ℝ) * 0 + SQUARE_SIZE * SQUARE_SIZE + 0 * 0 = 8 ^ 2 by norm_num [SQUARE_SIZE]]
    exact Real.sqrt_sq (by norm_num)
  show (⟨0 / Real.sqrt ((0 : ℝ) * 0 + SQUARE_SIZE * SQUARE_SIZE + 0 * 0),
    SQUARE_SIZE / Real.sqrt ((0 : ℝ) * 0 + SQUARE_SIZE * SQUARE_SIZE + 0 * 0),
    0 / Real.sqrt ((0 : ℝ) * 0 + SQUARE_SIZE * SQUARE_SIZE + 0 * 0)⟩ : float3) = ⟨0, 1, 0⟩
  rw [h]
  norm_num [SQUARE_SIZE]

theorem fnTL_const (mapx : Int) (c : ℚ) (x y : Int) :
    fnTL mapx (fun _ => c) x y = ⟨0, 1, 0⟩ := by
  unfold fnTL
  show float3.Normalize ⟨-((c : ℝ) - (c : ℝ)), SQUARE_SIZE, -((c : ℝ) - (c : ℝ))⟩ = _
  rw [sub_self, neg_zero]
  exact Normalize_flat

theorem fnBR_const (mapx : Int) (c : ℚ) (x y : Int) :
    fnBR mapx (fun _ => c) x y = ⟨0, 1, 0⟩ := by
  unfold fnBR
  show float3.Normalize ⟨(c : ℝ) - (c : ℝ), SQUARE_SIZE, (c : ℝ) - (c : ℝ)⟩ = _
  rw [sub_self]
  exact Normalize_flat

theorem slopeBlend_ones : slopeBlend 1 1 1 1 1 1 1 1 = 0 := by
  norm_num [slopeBlend, mix]

/-- On a uniformly flat grid every face normal stored by the whole-map
pipeline run is the unit up vector. -/
theorem face_const_flat (mapx mapy : Int) (c : ℚ) (s : DState) (X Y : Int)
    (hX0 : 0 ≤ X) (hX1 : X ≤ mapx - 1) (hY0 : 0 ≤ Y) (hY1 : Y ≤ mapy - 1) :
    (writeList (faceWrites mapx mapy (fun _ => c)
        (clampedCenterRect mapx mapy (SRectangle.mk 0 0 mapx mapy))) s.faceNormalsSynced)
      ((Y * mapx + X) * 2) = ⟨0, 1, 0⟩ ∧
    (writeList (faceWrites mapx mapy (fun _ => c)
        (clampedCenterRect mapx mapy (SRectangle.mk 0 0 mapx mapy))) s.faceNormalsSynced)
      ((Y * mapx + X) * 2 + 1) = ⟨0, 1, 0⟩ := by
  set rect := clampedCenterRect mapx mapy (SRectangle.mk 0 0 mapx mapy) with hrect
  have huni : ∀ kv ∈ faceWrites mapx mapy (fun _ => c) rect, kv.2 = (⟨0, 1, 0⟩ : float3) := by
    intro kv hkv
    simp only [faceWrites, List.mem_flatMap, List.mem_cons, List.not_mem_nil, or_false] at hkv
    obtain ⟨p, _, (rfl | rfl)⟩ := hkv
    · exact fnTL_const mapx c p.2 p.1
    · exact fnBR_const mapx c p.2 p.1
  have hmemp : (Y, X) ∈ rectCells (faceNormalRect mapx mapy rect).x1
      (faceNormalRect mapx mapy rect).z1 (faceNormalRect mapx mapy rect).x2
      (faceNormalRect mapx mapy rect).z2 := by
    rw [mem_rectCells]
    refine ⟨?_, ?_, ?_, ?_⟩ <;>
      simp only [hrect, faceNormalRect, clampedCenterRect] <;> omega
  constructor
  · refine writeList_hit _ _ _ _ (fun kv hkv _ => huni kv hkv) ?_
    refine ⟨((Y * mapx + X) * 2, fnTL mapx (fun _ => c) X Y), ?_, rfl⟩
    simp only [faceWrites, List.mem_flatMap]
    exact ⟨(Y, X), hmemp, by simp⟩
  · refine writeList_hit _ _ _ _ (fun kv hkv _ => huni kv hkv) ?_
    refine ⟨((Y * mapx + X) * 2 + 1, fnBR mapx (fun _ => c) X Y), ?_, rfl⟩
    simp only [faceWrites, List.mem_flatMap]
    exact ⟨(Y, X), hmemp, by simp⟩

/-- General form of the amended C4: the whole-map pipeline on a uniformly
flat synced grid (all corners at `c`) writes 0 — not 1 — into every slope
cell. -/
theorem slopeMap_flat_full (mapx mapy mx my : Int) (L : ℕ) (c : ℚ) (s : DState) (x y : Int)
    (hmx : mapx = 2 * mx) (hmy : mapy = 2 * my) (hx : 0 < mx) (hy : 0 < my)
    (hx0 : 0 ≤ x) (hx1 : x ≤ mx - 1) (hy0 : 0 ≤ y) (hy1 : y ≤ my - 1) :
    (UpdateHeightMapSynced mapx mapy L (fun _ => c) (SRectangle.mk 0 0 mapx mapy)
        s).slopeMap (y * (mapx / 2) + x) = 0 := by
  rw [UHMS_slopeMap]
  set rect := clampedCenterRect mapx mapy (SRectangle.mk 0 0 mapx mapy) with hrect
  set F := writeList (faceWrites mapx mapy (fun _ => c) rect) s.faceNormalsSynced with hF
  have hval : ∀ X Y : Int, 0 ≤ X → X ≤ mx - 1 → 0 ≤ Y → Y ≤ my - 1 →
      slopeValue mapx F X Y = 0 := by
    intro X Y hX0 hX1 hY0 hY1
    have r0 := (face_const_flat mapx mapy c s (X * 2) (Y * 2)
      (by omega) (by omega) (by omega) (by omega)).1
    have r1 := (face_const_flat mapx mapy c s (X * 2) (Y * 2)
      (by omega) (by omega) (by omega) (by omega)).2
    have r2 := (face_const_flat mapx mapy c s (X * 2 + 1) (Y * 2)
      (by omega) (by omega) (by omega) (by omega)).1
    have r3 := (face_const_flat mapx mapy c s (X * 2 + 1) (Y * 2)
      (by omega) (by omega) (by omega) (by omega)).2
    have r4 := (face_const_flat mapx mapy c s (X * 2) (Y * 2 + 1)
      (by omega) (by omega) (by omega) (by omega)).1
    have r5 := (face_const_flat mapx mapy c s (X * 2) (Y * 2 + 1)
      (by omega) (by omega) (by omega) (by omega)).2
    have r6 := (face_const_flat mapx mapy c s (X * 2 + 1) (Y * 2 + 1)
      (by omega) (by omega) (by omega) (by omega)).1
    have r7 := (face_const_flat mapx mapy c s (X * 2 + 1) (Y * 2 + 1)
      (by omega) (by omega) (by omega) (by omega)).2
    rw [← hrect, ← hF] at r0 r1 r2 r3 r4 r5 r6 r7
    unfold slopeValue
    show slopeBlend
      (F ((Y * 2 * mapx + X * 2) * 2)).y
      (F ((Y * 2 * mapx + X * 2) * 2 + 1)).y
      (F (((Y * 2 * mapx + X * 2) + 1) * 2)).y
      (F (((Y * 2 * mapx + X * 2) + 1) * 2 + 1)).y
      (F (((Y * 2 + 1) * mapx + X * 2) * 2)).y
      (F (((Y * 2 + 1) * mapx + X * 2) * 2 + 1)).y
      (F ((((Y * 2 + 1) * mapx + X * 2) + 1) * 2)).y
      (F ((((Y * 2 + 1) * mapx + X * 2) + 1) * 2 + 1)).y = 0
    have e2 : (((Y * 2) * mapx + X * 2) + 1) * 2 = ((Y * 2) * mapx + (X * 2 + 1)) * 2 := by
      ring
    have e6 : (((Y * 2 + 1) * mapx + X * 2) + 1) * 2 =
        ((Y * 2 + 1) * mapx + (X * 2 + 1)) * 2 := by ring
    rw [e2, e6, r0, r1, r2, r3, r4, r5, r6, r7]
    exact slopeBlend_ones
  refine writeList_hit _ _ _ 0 ?_ ?_
  · intro kv hkv _
    simp only [slopeWrites, List.mem_map] at hkv
    obtain ⟨p, hp, rfl⟩ := hkv
    rw [mem_rectCells] at hp
    refine hval p.2 p.1 ?_ ?_ ?_ ?_
    · have := hp.2.2.1
      omega
    · have := hp.2.2.2
      simp only [hrect, clampedCenterRect] at this
      omega
    · have := hp.1
      omega
    · have := hp.2.1
      simp only [hrect, clampedCenterRect] at this
      omega
  · refine ⟨(y * (mapx / 2) + x, slopeValue mapx F x y), ?_, rfl⟩
    simp only [slopeWrites, List.mem_map]
    refine ⟨(y, x), ?_, rfl⟩
    rw [mem_rectCells]
    refine ⟨?_, ?_, ?_, ?_⟩ <;>
      simp only [hrect, clampedCenterRect] <;> omega

/-- C4 (amended): slope values are oriented with 0 = flat and values
approaching 1 at a vertical cliff; on a uniformly flat synced grid the
whole-map pipeline writes 0 into every slope-map cell. -/
theorem slope_flat_cell_is_zero (mapx mapy mx my : Int) (L : ℕ) (c : ℚ) (s : DState)
    (x y : Int)
    (hmx : mapx = 2 * mx) (hmy : mapy = 2 * my) (hx : 0 < mx) (hy : 0 < my)
    (hx0 : 0 ≤ x) (hx1 : x ≤ mx - 1) (hy0 : 0 ≤ y) (hy1 : y ≤ my - 1) :
    (UpdateHeightMapSynced mapx mapy L (fun _ => c) (SRectangle.mk 0 0 mapx mapy)
        s).slopeMap (y * (mapx / 2) + x) = 0 :=
  slopeMap_flat_full mapx mapy mx my L c s x y hmx hmy hx hy hx0 hx1 hy0 hy1

/-- Witness for the amended C4 on a flat 2×2 map at height 5. -/
theorem slope_flat_cell_is_zero_witness :
    ((2 : Int) = 2 * 1 ∧ (2 : Int) = 2 * 1 ∧ (0 : Int) < 1 ∧ (0 : Int) ≤ 0 ∧
      (0 : Int) ≤ 1 - 1) ∧
    (UpdateHeightMapSynced 2 2 2 (fun _ => (5 : ℚ)) (SRectangle.mk 0 0 2 2)
        sampleDState).slopeMap (0 * ((2 : Int) / 2) + 0) = 0 :=
  ⟨⟨by decide, by decide, by decide, by decide, by decide⟩,
   slope_flat_cell_is_zero 2 2 1 1 2 5 sampleDState 0 0 (by decide) (by decide) (by decide)
     (by decide) (by decide) (by decide) (by decide) (by decide)⟩

/-- Counterexample to C4 as stated: on a uniformly flat 2×2 map the
pipeline stores 0 — not 1 — in slope cell (0,0). -/
theorem slope_flat_counterexample :
    (UpdateHeightMapSynced 2 2 2 (fun _ => (0 : ℚ)) (SRectangle.mk 0 0 2 2)
        sampleDState).slopeMap 0 ≠ 1 := by
  have h := slopeMap_flat_full 2 2 1 1 2 0 sampleDState 0 0 (by decide) (by decide)
    (by decide) (by decide) (by decide) (by decide) (by decide) (by decide)
  norm_num at h
  rw [h]
  norm_num

/-! ## Pipeline idempotence (C7) -/

theorem DState.ext' (a b : DState)
    (h1 : a.centerHeightMap = b.centerHeightMap)
    (h2 : a.mipCenterHeightMaps = b.mipCenterHeightMaps)
    (h3 : a.faceNormalsSynced = b.faceNormalsSynced)
    (h4 : a.faceNormalsUnsynced = b.faceNormalsUnsynced)
    (h5 : a.centerNormalsSynced = b.centerNormalsSynced)
    (h6 : a.centerNormalsUnsynced = b.centerNormalsUnsynced)
    (h7 : a.centerNormals2D = b.centerNormals2D)
    (h8 : a.slopeMap = b.slopeMap) : a = b := by
  cases a
  cases b
  congr

theorem UHMS_faceNormalsSynced (mapx mapy : Int) (L : ℕ) (heightmapSynced : Int → ℚ)
    (R : SRectangle) (s : DState) :
    (UpdateHeightMapSynced mapx mapy L heightmapSynced R s).faceNormalsSynced =
      writeList (faceWrites mapx mapy heightmapSynced (clampedCenterRect mapx mapy R))
        s.faceNormalsSynced := by
  show writeList (faceWrites mapx mapy heightmapSynced (clampedCenterRect mapx mapy R))
      (((List.range (L - 1)).foldl (mipPassStep mapx (clampedCenterRect mapx mapy R))
        (UpdateCenterHeightmap mapx heightmapSynced (clampedCenterRect mapx mapy R) s)
        ).faceNormalsSynced) = _
  rw [mipFoldl_faceNormalsSynced]
  rfl

theorem UHMS_centerNormalsSynced (mapx mapy : Int) (L : ℕ) (heightmapSynced : Int → ℚ)
    (R : SRectangle) (s : DState) :
    (UpdateHeightMapSynced mapx mapy L heightmapSynced R s).centerNormalsSynced =
      writeList (centerNormalWrites mapx mapy heightmapSynced (clampedCenterRect mapx mapy R))
        s.centerNormalsSynced := by
  show writeList (centerNormalWrites mapx mapy heightmapSynced (clampedCenterRect mapx mapy R))
      (((List.range (L - 1)).foldl (mipPassStep mapx (clampedCenterRect mapx mapy R))
        (UpdateCenterHeightmap mapx heightmapSynced (clampedCenterRect mapx mapy R) s)
        ).centerNormalsSynced) = _
  rw [mipFoldl_centerNormalsSynced]
  rfl

theorem UHMS_centerNormals2D (mapx mapy : Int) (L : ℕ) (heightmapSynced : Int → ℚ)
    (R : SRectangle) (s : DState) :
    (UpdateHeightMapSynced mapx mapy L heightmapSynced R s).centerNormals2D =
      writeList (centerNormal2DWrites mapx mapy heightmapSynced (clampedCenterRect mapx mapy R))
        s.centerNormals2D := by
  show writeList (centerNormal2DWrites mapx mapy heightmapSynced (clampedCenterRect mapx mapy R))
      (((List.range (L - 1)).foldl (mipPassStep mapx (clampedCenterRect mapx mapy R))
        (UpdateCenterHeightmap mapx heightmapSynced (clampedCenterRect mapx mapy R) s)
        ).centerNormals2D) = _
  rw [mipFoldl_centerNormals2D]
  rfl

theorem UHMS_faceNormalsUnsynced (mapx mapy : Int) (L : ℕ) (heightmapSynced : Int → ℚ)
    (R : SRectangle) (s : DState) :
    (UpdateHeightMapSynced mapx mapy L heightmapSynced R s).faceNormalsUnsynced =
      (if (R = SRectangle.mk 0 0 mapx mapy : Bool) = true then
        writeList (faceWrites mapx mapy heightmapSynced (clampedCenterRect mapx mapy R))
          s.faceNormalsUnsynced
      else s.faceNormalsUnsynced) := by
  show (if (R = SRectangle.mk 0 0 mapx mapy : Bool) = true then
      writeList (faceWrites mapx mapy heightmapSynced (clampedCenterRect mapx mapy R))
        (((List.range (L - 1)).foldl (mipPassStep mapx (clampedCenterRect mapx mapy R))
          (UpdateCenterHeightmap mapx heightmapSynced (clampedCenterRect mapx mapy R) s)
          ).faceNormalsUnsynced)
    else (((List.range (L - 1)).foldl (mipPassStep mapx (clampedCenterRect mapx mapy R))
      (UpdateCenterHeightmap mapx heightmapSynced (clampedCenterRect mapx mapy R) s)
      ).faceNormalsUnsynced)) = _
  rw [mipFoldl_faceNormalsUnsynced]
  rfl

theorem UHMS_centerNormalsUnsynced (mapx mapy : Int) (L : ℕ) (heightmapSynced : Int → ℚ)
    (R : SRectangle) (s : DState) :
    (UpdateHeightMapSynced mapx mapy L heightmapSynced R s).centerNormalsUnsynced =
      (if (R = SRectangle.mk 0 0 mapx mapy : Bool) = true then
        writeList (centerNormalWrites mapx mapy heightmapSynced (clampedCenterRect mapx mapy R))
          s.centerNormalsUnsynced
      else s.centerNormalsUnsynced) := by
  show (if (R = SRectangle.mk 0 0 mapx mapy : Bool) = true then
      writeList (centerNormalWrites mapx mapy heightmapSynced (clampedCenterRect mapx mapy R))
        (((List.range (L - 1)).foldl (mipPassStep mapx (clampedCenterRect mapx mapy R))
          (UpdateCenterHeightmap mapx heightmapSynced (clampedCenterRect mapx mapy R) s)
          ).centerNormalsUnsynced)
    else (((List.range (L - 1)).foldl (mipPassStep mapx (clampedCenterRect mapx mapy R))
      (UpdateCenterHeightmap mapx heightmapSynced (clampedCenterRect mapx mapy R) s)
      ).centerNormalsUnsynced)) = _
  rw [mipFoldl_centerNormalsUnsynced]
  rfl

theorem UHMS_idem_mips (mapx mapy : Int) (L : ℕ) (heightmapSynced : Int → ℚ)
    (R : SRectangle) (s : DState) :
    (UpdateHeightMapSynced mapx mapy L heightmapSynced R
        (UpdateHeightMapSynced mapx mapy L heightmapSynced R s)).mipCenterHeightMaps =
      (UpdateHeightMapSynced mapx mapy L heightmapSynced R s).mipCenterHeightMaps := by
  funext i
  induction i using Nat.strong_induction_on with
  | _ i ih =>
    rw [UHMS_mipCenterHeightMaps mapx mapy L heightmapSynced R
      (UpdateHeightMapSynced mapx mapy L heightmapSynced R s),
      UpdateMipHeightmaps_eq_foldl]
    by_cases hi : i < L - 1
    · rw [mipFoldl_level mapx (clampedCenterRect mapx mapy R) _ (L - 1) i hi]
      have hbase : (UpdateCenterHeightmap mapx heightmapSynced (clampedCenterRect mapx mapy R)
          (UpdateHeightMapSynced mapx mapy L heightmapSynced R s)).mipCenterHeightMaps i =
          (UpdateHeightMapSynced mapx mapy L heightmapSynced R s).mipCenterHeightMaps i := rfl
      rw [hbase]
      -- the run-2 fold leaves every level it reads equal to the run-1 result
      have htop : mipPointerHeightMaps
          ((List.range (L - 1)).foldl (mipPassStep mapx (clampedCenterRect mapx mapy R))
            (UpdateCenterHeightmap mapx heightmapSynced (clampedCenterRect mapx mapy R)
              (UpdateHeightMapSynced mapx mapy L heightmapSynced R s))) i =
          mipPointerHeightMaps (UpdateHeightMapSynced mapx mapy L heightmapSynced R s) i := by
        cases i with
        | zero =>
            show ((List.range (L - 1)).foldl (mipPassStep mapx (clampedCenterRect mapx mapy R))
              (UpdateCenterHeightmap mapx heightmapSynced (clampedCenterRect mapx mapy R)
                (UpdateHeightMapSynced mapx mapy L heightmapSynced R s))).centerHeightMap =
              (UpdateHeightMapSynced mapx mapy L heightmapSynced R s).centerHeightMap
            rw [mipFoldl_centerHeightMap]
            show writeList (centerWrites mapx heightmapSynced (clampedCenterRect mapx mapy R))
              (UpdateHeightMapSynced mapx mapy L heightmapSynced R s).centerHeightMap = _
            rw [UpdateHeightMapSynced_centerHeightMap, writeList_idem,
              ← UpdateHeightMapSynced_centerHeightMap mapx mapy L heightmapSynced R s]
        | succ i' =>
            show ((List.range (L - 1)).foldl (mipPassStep mapx (clampedCenterRect mapx mapy R))
              (UpdateCenterHeightmap mapx heightmapSynced (clampedCenterRect mapx mapy R)
                (UpdateHeightMapSynced mapx mapy L heightmapSynced R s))
              ).mipCenterHeightMaps i' =
              (UpdateHeightMapSynced mapx mapy L heightmapSynced R s).mipCenterHeightMaps i'
            have := ih i' (by omega)
            rw [UHMS_mipCenterHeightMaps mapx mapy L heightmapSynced R
              (UpdateHeightMapSynced mapx mapy L heightmapSynced R s),
              UpdateMipHeightmaps_eq_foldl] at this
            exact this
      rw [htop]
      -- run-1 characterization of the same level
      have hrun1 : (UpdateHeightMapSynced mapx mapy L heightmapSynced R s).mipCenterHeightMaps i =
          writeList
            (mipPassWrites mapx i (clampedCenterRect mapx mapy R)
              (mipPointerHeightMaps (UpdateHeightMapSynced mapx mapy L heightmapSynced R s) i))
            (s.mipCenterHeightMaps i) := by
        rw [UHMS_mipCenterHeightMaps mapx mapy L heightmapSynced R s,
          UpdateMipHeightmaps_eq_foldl,
          mipFoldl_level mapx (clampedCenterRect mapx mapy R) _ (L - 1) i hi,
          UHMS_mipPointer mapx mapy L heightmapSynced R s, UpdateMipHeightmaps_eq_foldl]
        rfl
      rw [hrun1, writeList_idem, ← hrun1]
    · rw [mipFoldl_untouched mapx (clampedCenterRect mapx mapy R) _ (L - 1) i (by omega)]
      rfl

/-- C7: running the derivation pipeline twice in succession on the same
rectangle (no mutation in between) leaves every derived buffer identical
to the first run's result. -/
theorem pipeline_idempotent (mapx mapy : Int) (L : ℕ) (heightmapSynced : Int → ℚ)
    (R : SRectangle) (s : DState) :
    UpdateHeightMapSynced mapx mapy L heightmapSynced R
        (UpdateHeightMapSynced mapx mapy L heightmapSynced R s) =
      UpdateHeightMapSynced mapx mapy L heightmapSynced R s := by
  apply DState.ext'
  · rw [UpdateHeightMapSynced_centerHeightMap mapx mapy L heightmapSynced R
      (UpdateHeightMapSynced mapx mapy L heightmapSynced R s),
      UpdateHeightMapSynced_centerHeightMap mapx mapy L heightmapSynced R s, writeList_idem]
  · exact UHMS_idem_mips mapx mapy L heightmapSynced R s
  · rw [UHMS_faceNormalsSynced mapx mapy L heightmapSynced R
      (UpdateHeightMapSynced mapx mapy L heightmapSynced R s),
      UHMS_faceNormalsSynced mapx mapy L heightmapSynced R s, writeList_idem]
  · rw [UHMS_faceNormalsUnsynced mapx mapy L heightmapSynced R
      (UpdateHeightMapSynced mapx mapy L heightmapSynced R s),
      UHMS_faceNormalsUnsynced mapx mapy L heightmapSynced R s]
    by_cases hb : (R = SRectangle.mk 0 0 mapx mapy : Bool) = true
    · rw [if_pos hb, if_pos hb, writeList_idem]
    · rw [if_neg hb, if_neg hb]
  · rw [UHMS_centerNormalsSynced mapx mapy L heightmapSynced R
      (UpdateHeightMapSynced mapx mapy L heightmapSynced R s),
      UHMS_centerNormalsSynced mapx mapy L heightmapSynced R s, writeList_idem]
  · rw [UHMS_centerNormalsUnsynced mapx mapy L heightmapSynced R
      (UpdateHeightMapSynced mapx mapy L heightmapSynced R s),
      UHMS_centerNormalsUnsynced mapx mapy L heightmapSynced R s]
    by_cases hb : (R = SRectangle.mk 0 0 mapx mapy : Bool) = true
    · rw [if_pos hb, if_pos hb, writeList_idem]
    · rw [if_neg hb, if_neg hb]
  · rw [UHMS_centerNormals2D mapx mapy L heightmapSynced R
      (UpdateHeightMapSynced mapx mapy L heightmapSynced R s),
      UHMS_centerNormals2D mapx mapy L heightmapSynced R s, writeList_idem]
  · rw [UHMS_slopeMap mapx mapy L heightmapSynced R
      (UpdateHeightMapSynced mapx mapy L heightmapSynced R s),
      UHMS_faceNormalsSynced mapx mapy L heightmapSynced R s, writeList_idem,
      UHMS_slopeMap mapx mapy L heightmapSynced R s, writeList_idem]

/-! ## Buffer-range safety of the pipeline (C10) -/

/-- Bounds of a row-major linear index given row/column bounds. -/
theorem rowMajor_bounds {w h y x : Int} (hy0 : 0 ≤ y) (hy1 : y ≤ h - 1)
    (hx0 : 0 ≤ x) (hx1 : x ≤ w - 1) (hw : 0 ≤ w) :
    0 ≤ y * w + x ∧ y * w + x < w * h := by
  constructor
  · exact add_nonneg (mul_nonneg hy0 hw) hx0
  · have h1 : y * w ≤ (h - 1) * w := mul_le_mul_of_nonneg_right (by omega) hw
    nlinarith

theorem centerWrites_safety (mapx mapy : Int) (heightmapSynced : Int → ℚ) (R : SRectangle)
    (hmx : 0 < mapx) (hmy : 0 < mapy) :
    ∀ kv ∈ centerWrites mapx heightmapSynced (clampedCenterRect mapx mapy R),
      0 ≤ kv.1 ∧ kv.1 < mapx * mapy := by
  intro kv hkv
  simp only [centerWrites, List.mem_map] at hkv
  obtain ⟨p, hp, rfl⟩ := hkv
  dsimp only
  rw [mem_rectCells] at hp
  have hb := rowMajor_bounds (w := mapx) (h := mapy) (y := p.1) (x := p.2)
    (by have := hp.1; simp only [clampedCenterRect] at this ⊢; omega)
    (by have := hp.2.1; simp only [clampedCenterRect] at this ⊢; omega)
    (by have := hp.2.2.1; simp only [clampedCenterRect] at this ⊢; omega)
    (by have := hp.2.2.2; simp only [clampedCenterRect] at this ⊢; omega)
    (by omega)
  constructor
  · exact hb.1
  · have := hb.2
    nlinarith

theorem centerReadIndices_safety (mapx mapy : Int) (R : SRectangle)
    (hmx : 0 < mapx) (hmy : 0 < mapy) :
    ∀ k ∈ centerReadIndices mapx (clampedCenterRect mapx mapy R),
      0 ≤ k ∧ k < (mapx + 1) * (mapy + 1) := by
  intro k hk
  simp only [centerReadIndices, List.mem_flatMap, List.mem_cons, List.not_mem_nil,
    or_false] at hk
  obtain ⟨p, hp, hkeq⟩ := hk
  rw [mem_rectCells] at hp
  have hy0 : 0 ≤ p.1 := by have := hp.1; simp only [clampedCenterRect] at this; omega
  have hy1 : p.1 ≤ mapy - 1 := by
    have := hp.2.1; simp only [clampedCenterRect] at this; omega
  have hx0 : 0 ≤ p.2 := by have := hp.2.2.1; simp only [clampedCenterRect] at this; omega
  have hx1 : p.2 ≤ mapx - 1 := by
    have := hp.2.2.2; simp only [clampedCenterRect] at this; omega
  rcases hkeq with rfl | rfl | rfl | rfl
  · have hb := rowMajor_bounds (w := mapx + 1) (h := mapy + 1) (y := p.1 + 0) (x := p.2 + 0)
      (by omega) (by omega) (by omega) (by omega) (by omega)
    constructor
    · linarith [hb.1]
    · linarith [hb.2]
  · have hb := rowMajor_bounds (w := mapx + 1) (h := mapy + 1) (y := p.1 + 0) (x := p.2 + 1)
      (by omega) (by omega) (by omega) (by omega) (by omega)
    constructor
    · linarith [hb.1]
    · linarith [hb.2]
  · have hb := rowMajor_bounds (w := mapx + 1) (h := mapy + 1) (y := p.1 + 1) (x := p.2 + 0)
      (by omega) (by omega) (by omega) (by omega) (by omega)
    constructor
    · linarith [hb.1]
    · linarith [hb.2]
  · have hb := rowMajor_bounds (w := mapx + 1) (h := mapy + 1) (y := p.1 + 1) (x := p.2 + 1)
      (by omega) (by omega) (by omega) (by omega) (by omega)
    constructor
    · linarith [hb.1]
    · linarith [hb.2]

theorem faceNormalRect_bounds (mapx mapy : Int) (R : SRectangle) (p : Int × Int)
    (hp : p ∈ rectCells (faceNormalRect mapx mapy (clampedCenterRect mapx mapy R)).x1
      (faceNormalRect mapx mapy (clampedCenterRect mapx mapy R)).z1
      (faceNormalRect mapx mapy (clampedCenterRect mapx mapy R)).x2
      (faceNormalRect mapx mapy (clampedCenterRect mapx mapy R)).z2) :
    0 ≤ p.1 ∧ p.1 ≤ mapy - 1 ∧ 0 ≤ p.2 ∧ p.2 ≤ mapx - 1 := by
  rw [mem_rectCells] at hp
  obtain ⟨h1, h2, h3, h4⟩ := hp
  simp only [faceNormalRect, clampedCenterRect] at h1 h2 h3 h4
  omega

theorem faceWrites_safety (mapx mapy : Int) (heightmapSynced : Int → ℚ) (R : SRectangle)
    (hmx : 0 < mapx) (hmy : 0 < mapy) :
    ∀ kv ∈ faceWrites mapx mapy heightmapSynced (clampedCenterRect mapx mapy R),
      0 ≤ kv.1 ∧ kv.1 < mapx * mapy * 2 := by
  intro kv hkv
  simp only [faceWrites, List.mem_flatMap, List.mem_cons, List.not_mem_nil, or_false] at hkv
  obtain ⟨p, hp, (rfl | rfl)⟩ := hkv <;>
  · dsimp only
    obtain ⟨hy0, hy1, hx0, hx1⟩ := faceNormalRect_bounds mapx mapy R p hp
    have hb := rowMajor_bounds (w := mapx) (h := mapy) (y := p.1) (x := p.2)
      hy0 hy1 hx0 hx1 (by omega)
    constructor
    · linarith [hb.1]
    · nlinarith [hb.2]

theorem centerNormalWrites_safety (mapx mapy : Int) (heightmapSynced : Int → ℚ)
    (R : SRectangle) (hmx : 0 < mapx) (hmy : 0 < mapy) :
    ∀ kv ∈ centerNormalWrites mapx mapy heightmapSynced (clampedCenterRect mapx mapy R),
      0 ≤ kv.1 ∧ kv.1 < mapx * mapy := by
  intro kv hkv
  simp only [centerNormalWrites, List.mem_map] at hkv
  obtain ⟨p, hp, rfl⟩ := hkv
  dsimp only
  obtain ⟨hy0, hy1, hx0, hx1⟩ := faceNormalRect_bounds mapx mapy R p hp
  have hb := rowMajor_bounds (w := mapx) (h := mapy) (y := p.1) (x := p.2)
    hy0 hy1 hx0 hx1 (by omega)
  constructor
  · exact hb.1
  · have := hb.2
    nlinarith

theorem faceReadIndices_safety (mapx mapy : Int) (R : SRectangle)
    (hmx : 0 < mapx) (hmy : 0 < mapy) :
    ∀ k ∈ faceReadIndices mapx mapy (clampedCenterRect mapx mapy R),
      0 ≤ k ∧ k < (mapx + 1) * (mapy + 1) := by
  intro k hk
  simp only [faceReadIndices, List.mem_flatMap, List.mem_cons, List.not_mem_nil,
    or_false] at hk
  obtain ⟨p, hp, hkeq⟩ := hk
  obtain ⟨hy0, hy1, hx0, hx1⟩ := faceNormalRect_bounds mapx mapy R p hp
  rcases hkeq with rfl | rfl | rfl | rfl
  · have hb := rowMajor_bounds (w := mapx + 1) (h := mapy + 1) (y := p.1) (x := p.2)
      (by omega) (by omega) (by omega) (by omega) (by omega)
    exact ⟨hb.1, by linarith [hb.2]⟩
  · have hb := rowMajor_bounds (w := mapx + 1) (h := mapy + 1) (y := p.1) (x := p.2 + 1)
      (by omega) (by omega) (by omega) (by omega) (by omega)
    constructor
    · linarith [hb.1]
    · linarith [hb.2]
  · have hb := rowMajor_bounds (w := mapx + 1) (h := mapy + 1) (y := p.1 + 1) (x := p.2)
      (by omega) (by omega) (by omega) (by omega) (by omega)
    exact ⟨hb.1, by linarith [hb.2]⟩
  · have hb := rowMajor_bounds (w := mapx + 1) (h := mapy + 1) (y := p.1 + 1) (x := p.2 + 1)
      (by omega) (by omega) (by omega) (by omega) (by omega)
    constructor
    · linarith [hb.1]
    · linarith [hb.2]

theorem slopeWrites_safety (mapx mapy : Int) (fns : Int → float3) (R : SRectangle)
    (hmx : 0 < mapx) (hmy : 0 < mapy) :
    ∀ kv ∈ slopeWrites mapx mapy fns (clampedCenterRect mapx mapy R),
      0 ≤ kv.1 ∧ kv.1 < (mapx / 2) * (mapy / 2) := by
  intro kv hkv
  simp only [slopeWrites, List.mem_map] at hkv
  obtain ⟨p, hp, rfl⟩ := hkv
  dsimp only
  rw [mem_rectCells] at hp
  obtain ⟨h1, h2, h3, h4⟩ := hp
  exact rowMajor_bounds (w := mapx / 2) (h := mapy / 2) (y := p.1) (x := p.2)
    (by omega) (by omega) (by omega) (by omega) (by omega)

theorem slopeReadIndices_safety (mapx mapy : Int) (R : SRectangle)
    (hmx : 0 < mapx) (hmy : 0 < mapy) :
    ∀ k ∈ slopeReadIndices mapx mapy (clampedCenterRect mapx mapy R),
      0 ≤ k ∧ k < mapx * mapy * 2 := by
  intro k hk
  simp only [slopeReadIndices, List.mem_flatMap, List.mem_cons, List.not_mem_nil,
    or_false] at hk
  obtain ⟨p, hp, hkeq⟩ := hk
  rw [mem_rectCells] at hp
  obtain ⟨h1, h2, h3, h4⟩ := hp
  have hA := rowMajor_bounds (w := mapx) (h := mapy) (y := p.1 * 2) (x := p.2 * 2)
    (by omega) (by omega) (by omega) (by omega) (by omega)
  have hB := rowMajor_bounds (w := mapx) (h := mapy) (y := p.1 * 2) (x := p.2 * 2 + 1)
    (by omega) (by omega) (by omega) (by omega) (by omega)
  have hC := rowMajor_bounds (w := mapx) (h := mapy) (y := p.1 * 2 + 1) (x := p.2 * 2)
    (by omega) (by omega) (by omega) (by omega) (by omega)
  have hD := rowMajor_bounds (w := mapx) (h := mapy) (y := p.1 * 2 + 1) (x := p.2 * 2 + 1)
    (by omega) (by omega) (by omega) (by omega) (by omega)
  rcases hkeq with rfl | rfl | rfl | rfl | rfl | rfl | rfl | rfl <;>
    exact ⟨by linarith [hA.1, hB.1, hC.1, hD.1],
      by linarith [hA.2, hB.2, hC.2, hD.2]⟩

theorem mipPass_safety (mapx mapy : Int) (L : ℕ) (hm : Int → ℚ) (R : SRectangle)
    (a b : Int) (hma : mapx = 2 ^ (L - 1) * a) (hmb : mapy = 2 ^ (L - 1) * b)
    (ha : 0 < a) (hb : 0 < b) (i : ℕ) (hi : i < L - 1) :
    (∀ kv ∈ mipPassWrites mapx i (clampedCenterRect mapx mapy R) hm,
      0 ≤ kv.1 ∧ kv.1 < (mapx >>> (i + 1)) * (mapy >>> (i + 1))) ∧
    (∀ k ∈ mipPassReadIndices mapx i (clampedCenterRect mapx mapy R),
      0 ≤ k ∧ k < (mapx >>> i) * (mapy >>> i)) := by
  have hmx : 0 < mapx := by rw [hma]; positivity
  have hmy : 0 < mapy := by rw [hmb]; positivity
  have hxi : mapx >>> i = 2 ^ (L - 1 - i) * a := by
    rw [hma, show L - 1 = i + (L - 1 - i) by omega, shift_pow_mul,
      show i + (L - 1 - i) - i = L - 1 - i by omega]
  have hyi : mapy >>> i = 2 ^ (L - 1 - i) * b := by
    rw [hmb, show L - 1 = i + (L - 1 - i) by omega, shift_pow_mul,
      show i + (L - 1 - i) - i = L - 1 - i by omega]
  have hxi1 : mapx >>> (i + 1) = 2 ^ (L - 1 - (i + 1)) * a := by
    rw [hma, show L - 1 = (i + 1) + (L - 1 - (i + 1)) by omega, shift_pow_mul,
      show i + 1 + (L - 1 - (i + 1)) - (i + 1) = L - 1 - (i + 1) by omega]
  have hyi1 : mapy >>> (i + 1) = 2 ^ (L - 1 - (i + 1)) * b := by
    rw [hmb, show L - 1 = (i + 1) + (L - 1 - (i + 1)) by omega, shift_pow_mul,
      show i + 1 + (L - 1 - (i + 1)) - (i + 1) = L - 1 - (i + 1) by omega]
  have hpow : (2 : ℤ) ^ (L - 1 - i) = 2 * 2 ^ (L - 1 - (i + 1)) := by
    rw [show L - 1 - i = (L - 1 - (i + 1)) + 1 by omega, pow_succ]; ring
  have hhx : mapx >>> i = 2 * (mapx >>> (i + 1)) := by rw [hxi, hxi1, hpow]; ring
  have hhy : mapy >>> i = 2 * (mapy >>> (i + 1)) := by rw [hyi, hyi1, hpow]; ring
  have hx1pos : 0 < mapx >>> (i + 1) := by rw [hxi1]; positivity
  have hy1pos : 0 < mapy >>> (i + 1) := by rw [hyi1]; positivity
  have hdx : (2 : ℤ) ^ i ∣ mapx :=
    ⟨2 ^ (L - 1 - i) * a, by
      rw [hma, show L - 1 = i + (L - 1 - i) by omega, pow_add,
        show i + (L - 1 - i) - i = L - 1 - i by omega]
      ring⟩
  have hdy : (2 : ℤ) ^ i ∣ mapy :=
    ⟨2 ^ (L - 1 - i) * b, by
      rw [hmb, show L - 1 = i + (L - 1 - i) by omega, pow_add,
        show i + (L - 1 - i) - i = L - 1 - i by omega]
      ring⟩
  have hx2le : (clampedCenterRect mapx mapy R).x2 ≤ mapx - 1 := by
    simp only [clampedCenterRect]; omega
  have hz2le : (clampedCenterRect mapx mapy R).z2 ≤ mapy - 1 := by
    simp only [clampedCenterRect]; omega
  have hx10 : 0 ≤ (clampedCenterRect mapx mapy R).x1 := by
    simp only [clampedCenterRect]; omega
  have hz10 : 0 ≤ (clampedCenterRect mapx mapy R).z1 := by
    simp only [clampedCenterRect]; omega
  have hex : (clampedCenterRect mapx mapy R).x2 >>> i ≤ mapx >>> i - 1 := by
    rw [shiftRight_eq, shiftRight_eq, ← ediv_pred_of_dvd mapx i hdx]
    exact Int.ediv_le_ediv (by positivity) hx2le
  have hey : (clampedCenterRect mapx mapy R).z2 >>> i ≤ mapy >>> i - 1 := by
    rw [shiftRight_eq, shiftRight_eq, ← ediv_pred_of_dvd mapy i hdy]
    exact Int.ediv_le_ediv (by positivity) hz2le
  have hsx0 : 0 ≤ (clampedCenterRect mapx mapy R).x1 >>> i := by
    rw [shiftRight_eq]; exact Int.ediv_nonneg hx10 (by positivity)
  have hsy0 : 0 ≤ (clampedCenterRect mapx mapy R).z1 >>> i := by
    rw [shiftRight_eq]; exact Int.ediv_nonneg hz10 (by positivity)
  constructor
  · intro kv hkv
    simp only [mipPassWrites, List.mem_map] at hkv
    obtain ⟨p, hp, rfl⟩ := hkv
    dsimp only
    rw [mem_rectCells2] at hp
    obtain ⟨⟨⟨ky, hky⟩, hylt⟩, ⟨kx, hkx⟩, hxlt⟩ := hp
    have hkey : p.2 / 2 + p.1 / 2 * (mapx >>> i) / 2 =
        p.1 / 2 * (mapx >>> (i + 1)) + p.2 / 2 := by
      rw [hhx, show p.1 / 2 * (2 * (mapx >>> (i + 1))) =
        p.1 / 2 * (mapx >>> (i + 1)) * 2 by ring,
        Int.mul_ediv_cancel _ two_ne_zero]
      ring
    rw [hkey]
    exact rowMajor_bounds (w := mapx >>> (i + 1)) (h := mapy >>> (i + 1))
      (y := p.1 / 2) (x := p.2 / 2)
      (by omega) (by omega) (by omega) (by omega) (by omega)
  · intro k hk
    simp only [mipPassReadIndices, List.mem_flatMap, List.mem_cons, List.not_mem_nil,
      or_false] at hk
    obtain ⟨p, hp, hkeq⟩ := hk
    rw [mem_rectCells2] at hp
    obtain ⟨⟨⟨ky, hky⟩, hylt⟩, ⟨kx, hkx⟩, hxlt⟩ := hp
    have hA := rowMajor_bounds (w := mapx >>> i) (h := mapy >>> i) (y := p.1) (x := p.2)
      (by omega) (by omega) (by omega) (by omega) (by omega)
    have hB := rowMajor_bounds (w := mapx >>> i) (h := mapy >>> i) (y := p.1) (x := p.2 + 1)
      (by omega) (by omega) (by omega) (by omega) (by omega)
    have hC := rowMajor_bounds (w := mapx >>> i) (h := mapy >>> i) (y := p.1 + 1) (x := p.2)
      (by omega) (by omega) (by omega) (by omega) (by omega)
    have hD := rowMajor_bounds (w := mapx >>> i) (h := mapy >>> i) (y := p.1 + 1)
      (x := p.2 + 1) (by omega) (by omega) (by omega) (by omega) (by omega)
    rcases hkeq with rfl | rfl | rfl | rfl <;>
      exact ⟨by linarith [hA.1, hB.1, hC.1, hD.1],
        by linarith [hA.2, hB.2, hC.2, hD.2]⟩

/-- C10: For map dimensions divisible by `2^(numHeightMipMaps-1)` (the
invariant `CheckMapMipDims` establishes at load), every buffer index
loaded or stored by one `UpdateHeightMapSynced(R)` — center writes and
corner reads, every mip pass's writes and reads, face/center-normal
writes and corner reads, slope writes and face-normal reads — lies
inside the corresponding allocated range, for any update rectangle `R`
(including rectangles touching the map border), thanks to the clamping
of the expanded rectangles and the per-level loop bounds. -/
theorem pipeline_indices_in_bounds (mapx mapy : Int) (L : ℕ)
    (heightmapSynced : Int → ℚ) (faceNormals : Int → float3) (R : SRectangle)
    (a b : Int) (hma : mapx = 2 ^ (L - 1) * a) (hmb : mapy = 2 ^ (L - 1) * b)
    (ha : 0 < a) (hb : 0 < b) (hL : 2 ≤ L) :
    PipelineIndexSafety mapx mapy L heightmapSynced faceNormals R := by
  have hmx : 0 < mapx := by rw [hma]; positivity
  have hmy : 0 < mapy := by rw [hmb]; positivity
  exact ⟨centerWrites_safety mapx mapy heightmapSynced R hmx hmy,
    centerReadIndices_safety mapx mapy R hmx hmy,
    fun i hi => mipPass_safety mapx mapy L heightmapSynced R a b hma hmb ha hb i hi,
    faceWrites_safety mapx mapy heightmapSynced R hmx hmy,
    centerNormalWrites_safety mapx mapy heightmapSynced R hmx hmy,
    faceReadIndices_safety mapx mapy R hmx hmy,
    slopeWrites_safety mapx mapy faceNormals R hmx hmy,
    slopeReadIndices_safety mapx mapy R hmx hmy⟩

theorem pipeline_indices_in_bounds_witness :
    PipelineIndexSafety 2 2 2 sampleHeightMap sampleDState.faceNormalsSynced
      (SRectangle.mk 0 0 1 1) :=
  pipeline_indices_in_bounds 2 2 2 sampleHeightMap sampleDState.faceNormalsSynced
    (SRectangle.mk 0 0 1 1) 1 1 (by decide) (by decide) (by decide) (by decide) (by decide)
